import Mathlib

/-!
Verification of the RBQL query engine (`src/python/rbql.py`) against its
natural-language specification.  The Python source is shallowly embedded:
strings are `List Char` or `String`, Python lists are Lean lists, Python
dicts are insertion-ordered association lists, exceptions are `Except`,
and the stable Timsort behind `sorted` is modelled by the stable
`List.mergeSort`.  Each definition mirrors one Python function and keeps
its name where Lean allows it.
-/

namespace RBQL

/-- The single-quote character (written via its code point). -/
def squote : Char := Char.ofNat 39

/-- The double-quote character. -/
def dquote : Char := Char.ofNat 34

/-- The backslash character. -/
def bslash : Char := Char.ofNat 92

/-- The horizontal-tab character. -/
def tabc : Char := Char.ofNat 9

/-- Membership in Python's `str.rstrip()` / `str.strip()` default
whitespace set (the ASCII part: space, tab, LF, CR, VT, FF). -/
def pySpace (c : Char) : Bool :=
  c = ' ' || c = tabc || c = Char.ofNat 10 || c = Char.ofNat 13 ||
  c = Char.ofNat 11 || c = Char.ofNat 12

/-- Python `str.rstrip()` on a character list. -/
def rstripChars (l : List Char) : List Char :=
  (l.reverse.dropWhile pySpace).reverse

/-- Python `str.lstrip()` on a character list. -/
def lstripChars (l : List Char) : List Char :=
  l.dropWhile pySpace

/-- Python `c.upper()` for a single character (ASCII case mapping;
`rbql.py` only ever compares keyword phrases made of ASCII letters). -/
def char_upper (c : Char) : Char :=
  if 'a' ≤ c ∧ c ≤ 'z' then Char.ofNat (c.toNat - 32) else c

/-- Python `s.upper()` (ASCII case mapping). -/
def str_upper (s : String) : String :=
  ⟨s.data.map char_upper⟩

/-! ### 4.1 Comment stripping: `is_escaped_quote` and `strip_comments` -/

/-- `is_escaped_quote(cline, i)` from `rbql.py` lines 96-104.  In Python,
`i == 1` is special-cased because `cline[i-2]` would wrap around to the
last character; callers always supply `i < cline.length`, so the `getD`
defaults are never read at the positions the source inspects. -/
def is_escaped_quote (cline : List Char) (i : Nat) : Bool :=
  if i = 0 then false
  else if i = 1 then cline.getD 0 ' ' = bslash
  else cline.getD (i - 1) ' ' = bslash && !(cline.getD (i - 2) ' ' = bslash)

/-- The scanning loop of `strip_comments` (lines 110-119): walk the line
left to right tracking the currently open quote mark; an unquoted `#`
truncates the line (right-stripped); quotes toggle the literal state
unless escaped. -/
def strip_comments_go (cline : List Char) (qm : Option Char) (i : Nat) : List Char :=
  if _h : i < cline.length then
    let c := cline.getD i ' '
    match qm with
    | none =>
      if c = '#' then rstripChars (cline.take i)
      else if c = squote || c = dquote then strip_comments_go cline (some c) (i + 1)
      else strip_comments_go cline none (i + 1)
    | some q =>
      if c = q && !(is_escaped_quote cline i) then strip_comments_go cline none (i + 1)
      else strip_comments_go cline (some q) (i + 1)
  else cline
termination_by cline.length - i
decreasing_by all_goals omega

/-- `strip_comments(cline)` from `rbql.py` lines 107-120: right-strip the
line, replace every tab with a space, then run the quote-aware scan. -/
def strip_comments (cline : List Char) : List Char :=
  let cl := (rstripChars cline).map (fun c => if c = tabc then ' ' else c)
  strip_comments_go cl none 0

/-- Specification-side scanner for comment stripping, phrased the way the
spec describes it: a structural recursion over the remaining characters
carrying the quote state and the previous two characters; a quote inside
a literal is escaped iff the previous character is a backslash that is
itself not preceded by a backslash.  Returns the index of the first `#`
outside any string literal. -/
def first_unquoted_hash : List Char → Option Char → Option Char → Option Char → Nat → Option Nat
  | [], _, _, _, _ => none
  | c :: rest, qm, p1, p2, i =>
    match qm with
    | none =>
      if c = '#' then some i
      else if c = squote || c = dquote then first_unquoted_hash rest (some c) (some c) p1 (i + 1)
      else first_unquoted_hash rest none (some c) p1 (i + 1)
    | some q =>
      let escaped := p1 = some bslash && !(p2 = some bslash)
      if c = q && !escaped then first_unquoted_hash rest none (some c) p1 (i + 1)
      else first_unquoted_hash rest (some q) (some c) p1 (i + 1)

/-- Specification-side `strip_comments`: normalize the line (right strip,
tabs to spaces); if it has a `#` outside every string literal, keep the
right-stripped prefix before the first such `#`, else keep the whole
normalized line. -/
def strip_comments_spec (cline : List Char) : List Char :=
  let cl := (rstripChars cline).map (fun c => if c = tabc then ' ' else c)
  match first_unquoted_hash cl none none none 0 with
  | some i => rstripChars (cl.take i)
  | none => cl

/-- The character immediately before position `i` (none at the start of
the line). -/
def prev_char1 (cl : List Char) (i : Nat) : Option Char :=
  if i = 0 then none else some (cl.getD (i - 1) ' ')

/-- The character two positions before position `i` (none when fewer than
two characters precede it). -/
def prev_char2 (cl : List Char) (i : Nat) : Option Char :=
  if i ≤ 1 then none else some (cl.getD (i - 2) ' ')

lemma is_escaped_quote_eq_spec (cl : List Char) (i : Nat) :
    is_escaped_quote cl i =
      (prev_char1 cl i = some bslash && !(prev_char2 cl i = some bslash)) := by
  unfold is_escaped_quote prev_char1 prev_char2
  rcases i with _ | _ | i <;> simp

lemma strip_comments_go_spec (cl : List Char) (qm : Option Char) (i : Nat) :
    strip_comments_go cl qm i =
      (match first_unquoted_hash (cl.drop i) qm (prev_char1 cl i) (prev_char2 cl i) i with
       | some j => rstripChars (cl.take j)
       | none => cl) := by
  generalize hk : cl.length - i = k
  induction k generalizing qm i with
  | zero =>
    have h : ¬ i < cl.length := by omega
    rw [strip_comments_go, dif_neg h, List.drop_eq_nil_of_le (by omega)]
    simp [first_unquoted_hash]
  | succ k ih =>
    have h : i < cl.length := by omega
    have hd : cl.drop i = cl.getD i ' ' :: cl.drop (i + 1) := by
      rw [List.drop_eq_getElem_cons h, List.getD_eq_getElem cl ' ' h]
    have hih : ∀ qm', strip_comments_go cl qm' (i + 1) =
        (match first_unquoted_hash (cl.drop (i + 1)) qm' (prev_char1 cl (i + 1))
            (prev_char2 cl (i + 1)) (i + 1) with
         | some j => rstripChars (cl.take j)
         | none => cl) := fun qm' => ih qm' (i + 1) (by omega)
    have hp1 : prev_char1 cl (i + 1) = some (cl.getD i ' ') := by
      unfold prev_char1; simp
    have hp2 : prev_char2 cl (i + 1) = prev_char1 cl i := by
      unfold prev_char1 prev_char2
      rcases i with _ | i <;> simp
    rw [strip_comments_go, dif_pos h, hd]
    cases qm with
    | none =>
      simp only [first_unquoted_hash]
      split_ifs <;> simp [hih, hp1, hp2]
    | some q =>
      simp only [first_unquoted_hash, is_escaped_quote_eq_spec]
      split_ifs <;> simp [hih, hp1, hp2]

/-- **C6.** `strip_comments` first right-strips the line and replaces
every tab with a space, then truncates at the first `#` outside any
string literal (right-stripping the kept prefix), where a quote inside a
literal is escaped iff it is immediately preceded by a single backslash
that is itself not preceded by a backslash; a line with no unquoted `#`
is returned unchanged apart from those normalizations.  Stated as the
equality of the source scan (`strip_comments`) with the structural
specification scanner (`strip_comments_spec`). -/
theorem strip_comments_correct (cline : List Char) :
    strip_comments cline = strip_comments_spec cline := by
  unfold strip_comments strip_comments_spec
  have := strip_comments_go_spec
    ((rstripChars cline).map (fun c => if c = tabc then ' ' else c)) none 0
  simpa [prev_char1, prev_char2] using this

/-! ### `flike` (`rbql.py` lines 371-397)

The generated script compiles a LIKE pattern to a Python regex built only
from regex-escaped literal segments, `.` and `.*`, anchored with `^`/`$`.
Such regexes are modelled by a list of atoms; `rmatch` is the standard
matching relation, with the anchors expressed by requiring the whole text
to be consumed (`re.match` anchors at the start, the emitted `$` at the
end).  A regex-escaped segment denotes its characters matched literally,
one `RAtom.lit` per character. -/

/-- An atom of the regexes `_like_to_regex` can emit: a literal
(escaped) character, `.` and `.*`. -/
inductive RAtom
  | lit (c : Char)
  | dot
  | star
deriving DecidableEq

/-- Matching a list of atoms against a whole text. -/
def rmatch : List RAtom → List Char → Bool
  | [], [] => true
  | [], _ :: _ => false
  | RAtom.lit _ :: _, [] => false
  | RAtom.lit c :: rs, d :: ds => c = d && rmatch rs ds
  | RAtom.dot :: _, [] => false
  | RAtom.dot :: rs, _ :: ds => rmatch rs ds
  | RAtom.star :: rs, [] => rmatch rs []
  | RAtom.star :: rs, d :: ds => rmatch rs (d :: ds) || rmatch (RAtom.star :: rs) ds
termination_by rs ds => (ds.length, rs.length)

/-- The loop of `Flike._like_to_regex` (lines 375-389): scan the pattern;
at each `_` or `%` flush the pending literal segment `pattern[p:i]`
(regex-escaped, i.e. one literal atom per character) followed by `.` or
`.*`; at the end flush the remaining segment.  `seg` holds the pending
segment in reverse. -/
def like_to_regex_go : List Char → List Char → List RAtom
  | seg, [] => seg.reverse.map RAtom.lit
  | seg, c :: rest =>
    if c = '_' then seg.reverse.map RAtom.lit ++ RAtom.dot :: like_to_regex_go [] rest
    else if c = '%' then seg.reverse.map RAtom.lit ++ RAtom.star :: like_to_regex_go [] rest
    else like_to_regex_go (c :: seg) rest

/-- `Flike._like_to_regex(pattern)` (modulo the `^`/`$` anchors, which
live in `rmatch`). -/
def like_to_regex (pattern : List Char) : List RAtom :=
  like_to_regex_go [] pattern

/-- `flike(text, pattern)` (lines 391-395; the per-pattern cache is
semantically transparent). -/
def flike (text pattern : List Char) : Bool :=
  rmatch (like_to_regex pattern) text

/-- Specification-side regex for a LIKE pattern, as the spec phrases it:
each `_` becomes `.`, each `%` becomes `.*`, and every other character is
escaped into a literal atom. -/
def spec_like_regex : List Char → List RAtom
  | [] => []
  | c :: rest =>
    (if c = '_' then RAtom.dot else if c = '%' then RAtom.star else RAtom.lit c)
      :: spec_like_regex rest

lemma like_to_regex_go_spec (pattern : List Char) : ∀ seg : List Char,
    like_to_regex_go seg pattern = seg.reverse.map RAtom.lit ++ spec_like_regex pattern := by
  induction pattern with
  | nil => intro seg; simp [like_to_regex_go, spec_like_regex]
  | cons c rest ih =>
    intro seg
    by_cases h1 : c = '_'
    · simp [like_to_regex_go, spec_like_regex, h1, ih]
    · by_cases h2 : c = '%'
      · simp [like_to_regex_go, spec_like_regex, h1, h2, ih]
      · simp only [like_to_regex_go, spec_like_regex, if_neg h1, if_neg h2, ih (c :: seg)]
        simp

/-- **C3.** For every text and pattern, `flike(s, p)` returns true iff
`s` matches the anchored regex obtained from `p` by regex-escaping the
segments between occurrences of `_` and `%`, replacing each `_` with `.`
and each `%` with `.*` (the anchoring is the full-match requirement of
`rmatch`). -/
theorem flike_correct (text pattern : List Char) :
    flike text pattern = rmatch (spec_like_regex pattern) text := by
  unfold flike like_to_regex
  rw [like_to_regex_go_spec]
  simp

/-! ### The record iterator `rows` (`rbql.py` lines 330-351)

The stream is its full character content; `f.read(chunksize)` is
`take`/`drop`.  `chunk.find(sep)` together with the slices `chunk[:i]`
and `chunk[i+1:]` is `splitFirst`. -/

/-- Split a chunk at the first occurrence of `sep`: `some (pre, post)`
with `chunk = pre ++ sep :: post`, or `none` when `sep` does not occur
(`chunk.find(sep) == -1`). -/
def splitFirst (sep : Char) : List Char → Option (List Char × List Char)
  | [] => none
  | c :: rest =>
    if c = sep then some ([], rest)
    else
      match splitFirst sep rest with
      | none => none
      | some (pre, post) => some (c :: pre, post)

lemma splitFirst_post_length {sep : Char} :
    ∀ {chunk pre post : List Char}, splitFirst sep chunk = some (pre, post) →
      post.length < chunk.length := by
  intro chunk
  induction chunk with
  | nil => intro pre post h; simp [splitFirst] at h
  | cons c rest ih =>
    intro pre post h
    by_cases hc : c = sep
    · simp [splitFirst, hc] at h
      simp [← h.2]
    · simp only [splitFirst, if_neg hc] at h
      cases hsf : splitFirst sep rest with
      | none => rw [hsf] at h; simp at h
      | some pp =>
        rw [hsf] at h
        simp at h
        have := @ih pp.1 pp.2 (by rw [hsf])
        have hpost : post = pp.2 := h.2.symm
        simp [hpost]
        omega

/-- The inner `while` of `rows`: repeatedly cut the chunk at the next
separator, yielding `incomplete_row + chunk[:i]` (or `chunk[:i]`), until
no separator remains; the leftover is appended to the carry. -/
def rows_inner (sep : Char) (inc : Option (List Char)) (chunk : List Char) :
    List (List Char) × Option (List Char) :=
  match h : splitFirst sep chunk with
  | none => ([], some (inc.getD [] ++ chunk))
  | some (pre, post) =>
    let r := rows_inner sep none post
    ((inc.getD [] ++ pre) :: r.1, r.2)
termination_by chunk.length
decreasing_by exact splitFirst_post_length h

/-- The outer loop of `rows`: read a chunk; an empty read ends the
stream, yielding a final non-empty carry; otherwise process the chunk
and continue on the rest of the content. -/
def rows_go (chunksize : Nat) (sep : Char) (content : List Char)
    (inc : Option (List Char)) : List (List Char) :=
  if hch : (content.take chunksize).isEmpty then
    match inc with
    | some r => if r.length ≠ 0 then [r] else []
    | none => []
  else
    let r := rows_inner sep inc (content.take chunksize)
    r.1 ++ rows_go chunksize sep (content.drop chunksize) r.2
termination_by content.length
decreasing_by
  simp only [List.isEmpty_iff, List.take_eq_nil_iff, not_or] at hch
  have h1 : chunksize ≠ 0 := hch.1
  have h2 : content ≠ [] := hch.2
  have := List.length_pos.mpr h2
  simp [List.length_drop]
  omega

/-- `rows(f, chunksize, sep)` from `rbql.py`, as the list of yielded
records for a stream with the given full content. -/
def rows (chunksize : Nat) (sep : Char) (content : List Char) : List (List Char) :=
  rows_go chunksize sep content none

/-- Specification-side splitter: the separator-delimited runs of the
content, in order, including empty runs (always at least one part). -/
def split_sep (sep : Char) : List Char → List (List Char)
  | [] => [[]]
  | c :: rest =>
    if c = sep then [] :: split_sep sep rest
    else (split_sep sep rest).modifyHead (c :: ·)

/-- All parts but the last (`[]` on the empty list). -/
def initD : List (List Char) → List (List Char)
  | [] => []
  | [_] => []
  | x :: y :: ys => x :: initD (y :: ys)

/-- The last part (`[]` on the empty list). -/
def lastD : List (List Char) → List Char
  | [] => []
  | [x] => x
  | _ :: y :: ys => lastD (y :: ys)

/-- Drop the final part when it is empty (the final carry is yielded iff
it is non-empty). -/
def drop_last_empty (parts : List (List Char)) : List (List Char) :=
  if lastD parts = [] then initD parts else parts

/-- Specification-side record list: all separator-delimited runs, with
the trailing run dropped iff it is empty. -/
def spec_records (sep : Char) (content : List Char) : List (List Char) :=
  drop_last_empty (split_sep sep content)

/-- Joining records with the separator (no trailing separator). -/
def join_sep (sep : Char) : List (List Char) → List Char
  | [] => []
  | [x] => x
  | x :: y :: ys => x ++ sep :: join_sep sep (y :: ys)

lemma lastD_cons_ne {x : List Char} {l : List (List Char)} (h : l ≠ []) :
    lastD (x :: l) = lastD l := by
  cases l with
  | nil => exact absurd rfl h
  | cons y ys => rfl

lemma initD_cons_ne {x : List Char} {l : List (List Char)} (h : l ≠ []) :
    initD (x :: l) = x :: initD l := by
  cases l with
  | nil => exact absurd rfl h
  | cons y ys => rfl

lemma lastD_append {X Y : List (List Char)} (h : Y ≠ []) :
    lastD (X ++ Y) = lastD Y := by
  induction X with
  | nil => simp
  | cons x xs ih =>
    have hne : xs ++ Y ≠ [] := by
      simp only [ne_eq, List.append_eq_nil, not_and]
      intro _; exact h
    rw [List.cons_append, lastD_cons_ne hne, ih]

lemma initD_append {X Y : List (List Char)} (h : Y ≠ []) :
    initD (X ++ Y) = X ++ initD Y := by
  induction X with
  | nil => simp
  | cons x xs ih =>
    have hne : xs ++ Y ≠ [] := by
      simp only [ne_eq, List.append_eq_nil, not_and]
      intro _; exact h
    rw [List.cons_append, initD_cons_ne hne, ih, List.cons_append]

lemma drop_last_empty_append {X Y : List (List Char)} (h : Y ≠ []) :
    drop_last_empty (X ++ Y) = X ++ drop_last_empty Y := by
  unfold drop_last_empty
  rw [lastD_append h, initD_append h]
  split_ifs <;> rfl

lemma initD_append_lastD {parts : List (List Char)} (h : parts ≠ []) :
    initD parts ++ [lastD parts] = parts := by
  induction parts with
  | nil => exact absurd rfl h
  | cons x xs ih =>
    cases xs with
    | nil => rfl
    | cons y ys =>
      have hne : (y :: ys : List (List Char)) ≠ [] := by simp
      rw [initD_cons_ne hne, lastD_cons_ne hne, List.cons_append, ih hne]

lemma split_sep_ne_nil (sep : Char) (l : List Char) : split_sep sep l ≠ [] := by
  induction l with
  | nil => simp [split_sep]
  | cons c rest ih =>
    by_cases h : c = sep
    · simp [split_sep, h]
    · simp only [split_sep, if_neg h]
      cases hP : split_sep sep rest with
      | nil => exact absurd hP ih
      | cons p ps => simp

lemma split_sep_free {sep : Char} : ∀ {l : List Char}, sep ∉ l → split_sep sep l = [l] := by
  intro l
  induction l with
  | nil => intro _; rfl
  | cons c rest ih =>
    intro h
    have hc : ¬ c = sep := fun hh => h (by simp [hh])
    have hrest : sep ∉ rest := fun hh => h (by simp [hh])
    simp [split_sep, hc, ih hrest]

lemma split_sep_append_free {sep : Char} : ∀ {x : List Char} (l : List Char), sep ∉ x →
    split_sep sep (x ++ l) = (split_sep sep l).modifyHead (x ++ ·) := by
  intro x
  induction x with
  | nil =>
    intro l _
    cases hP : split_sep sep l with
    | nil => exact absurd hP (split_sep_ne_nil sep l)
    | cons p ps => simp [hP]
  | cons c rest ih =>
    intro l h
    have hc : ¬ c = sep := fun hh => h (by simp [hh])
    have hrest : sep ∉ rest := fun hh => h (by simp [hh])
    rw [List.cons_append]
    simp only [split_sep, if_neg hc, ih l hrest]
    cases hP : split_sep sep l with
    | nil => exact absurd hP (split_sep_ne_nil sep l)
    | cons p ps => simp

lemma sep_not_mem_lastD (sep : Char) : ∀ (l : List Char), sep ∉ lastD (split_sep sep l) := by
  intro l
  induction l with
  | nil => simp [split_sep, lastD]
  | cons c rest ih =>
    by_cases h : c = sep
    · simp only [split_sep, if_pos h]
      rw [lastD_cons_ne (split_sep_ne_nil sep rest)]
      exact ih
    · simp only [split_sep, if_neg h]
      cases hP : split_sep sep rest with
      | nil => exact absurd hP (split_sep_ne_nil sep rest)
      | cons p ps =>
        cases ps with
        | nil =>
          simp only [List.modifyHead, lastD, List.mem_cons]
          rw [hP] at ih
          simp only [lastD] at ih
          intro hmem
          rcases hmem with hmem | hmem
          · exact h hmem.symm
          · exact ih hmem
        | cons q qs =>
          simp only [List.modifyHead]
          rw [lastD_cons_ne (by simp), ← lastD_cons_ne (l := q :: qs) (by simp) (x := p)]
          rw [hP] at ih
          rw [lastD_cons_ne (by simp)] at ih
          rw [lastD_cons_ne (by simp)]
          exact ih

lemma split_sep_append (sep : Char) (b : List Char) : ∀ (a : List Char),
    split_sep sep (a ++ b) =
      initD (split_sep sep a) ++ split_sep sep (lastD (split_sep sep a) ++ b) := by
  intro a
  induction a with
  | nil => simp [split_sep, initD, lastD]
  | cons c rest ih =>
    by_cases h : c = sep
    · rw [List.cons_append]
      simp only [split_sep, if_pos h]
      rw [initD_cons_ne (split_sep_ne_nil sep rest),
        lastD_cons_ne (split_sep_ne_nil sep rest), List.cons_append, ih]
    · rw [List.cons_append]
      simp only [split_sep, if_neg h]
      cases hP : split_sep sep rest with
      | nil => exact absurd hP (split_sep_ne_nil sep rest)
      | cons p ps =>
        rw [hP] at ih
        cases ps with
        | nil =>
          have e1 : List.modifyHead (fun a => c :: a) [p] = [c :: p] := rfl
          have e2 : split_sep sep ((c :: p) ++ b) =
              List.modifyHead (fun a => c :: a) (split_sep sep (p ++ b)) := by
            rw [List.cons_append]
            simp only [split_sep, if_neg h]
          rw [e1, ih]
          simp only [initD, lastD, List.nil_append, e2]
        | cons q qs =>
          have e1 : List.modifyHead (fun a => c :: a) (p :: q :: qs) = (c :: p) :: q :: qs := rfl
          rw [e1, ih]
          rfl

lemma join_sep_split (sep : Char) : ∀ (l : List Char), join_sep sep (split_sep sep l) = l := by
  intro l
  induction l with
  | nil => rfl
  | cons c rest ih =>
    by_cases h : c = sep
    · simp only [split_sep, if_pos h]
      cases hP : split_sep sep rest with
      | nil => exact absurd hP (split_sep_ne_nil sep rest)
      | cons p ps =>
        rw [hP] at ih
        simp only [join_sep, List.nil_append, h]
        rw [ih]
    · simp only [split_sep, if_neg h]
      cases hP : split_sep sep rest with
      | nil => exact absurd hP (split_sep_ne_nil sep rest)
      | cons p ps =>
        rw [hP] at ih
        cases ps with
        | nil =>
          simp only [List.modifyHead, join_sep] at ih ⊢
          rw [ih]
        | cons q qs =>
          simp only [List.modifyHead, join_sep] at ih ⊢
          rw [List.cons_append, ih]

lemma join_sep_concat (sep : Char) (l : List Char) : ∀ (X : List (List Char)),
    join_sep sep (X ++ [l]) = if X = [] then l else join_sep sep X ++ sep :: l := by
  intro X
  induction X with
  | nil => simp [join_sep]
  | cons x xs ih =>
    cases xs with
    | nil => simp [join_sep]
    | cons y ys =>
      have h2 : ((y :: ys : List (List Char))) ≠ [] := by simp
      have e : join_sep sep (x :: y :: ys ++ [l]) = x ++ sep :: join_sep sep (y :: ys ++ [l]) := rfl
      have e2 : join_sep sep (x :: y :: ys) = x ++ sep :: join_sep sep (y :: ys) := rfl
      rw [e, ih, if_neg h2, e2]
      simp

lemma splitFirst_none {sep : Char} : ∀ {chunk : List Char},
    splitFirst sep chunk = none → sep ∉ chunk := by
  intro chunk
  induction chunk with
  | nil => intro _; simp
  | cons c rest ih =>
    intro h
    by_cases hc : c = sep
    · simp [splitFirst, hc] at h
    · simp only [splitFirst, if_neg hc] at h
      cases hsf : splitFirst sep rest with
      | none =>
        intro hmem
        rcases List.mem_cons.mp hmem with hmem | hmem
        · exact hc hmem.symm
        · exact ih hsf hmem
      | some pp => rw [hsf] at h; simp at h

lemma splitFirst_some {sep : Char} : ∀ {chunk pre post : List Char},
    splitFirst sep chunk = some (pre, post) → chunk = pre ++ sep :: post ∧ sep ∉ pre := by
  intro chunk
  induction chunk with
  | nil => intro pre post h; simp [splitFirst] at h
  | cons c rest ih =>
    intro pre post h
    by_cases hc : c = sep
    · simp [splitFirst, hc] at h
      obtain ⟨h1, h2⟩ := h
      subst hc
      refine ⟨?_, ?_⟩ <;> simp_all
    · simp only [splitFirst, if_neg hc] at h
      cases hsf : splitFirst sep rest with
      | none => rw [hsf] at h; simp at h
      | some pp =>
        rw [hsf] at h
        simp only [Option.some.injEq, Prod.mk.injEq] at h
        have hih := @ih pp.1 pp.2 (by rw [hsf])
        constructor
        · rw [← h.1, ← h.2, List.cons_append, ← hih.1]
        · rw [← h.1]
          intro hmem
          rcases List.mem_cons.mp hmem with hmem | hmem
          · exact hc hmem.symm
          · exact hih.2 hmem

lemma rows_inner_spec (sep : Char) : ∀ (chunk : List Char) (inc : Option (List Char)),
    sep ∉ inc.getD [] →
    rows_inner sep inc chunk =
      (initD (split_sep sep (inc.getD [] ++ chunk)),
       some (lastD (split_sep sep (inc.getD [] ++ chunk)))) := by
  intro chunk
  generalize hk : chunk.length = k
  induction k using Nat.strong_induction_on generalizing chunk with
  | _ k ih =>
    intro inc hinc
    unfold rows_inner
    split
    · rename_i heq
      have hfree : sep ∉ inc.getD [] ++ chunk := by
        intro hmem
        rcases List.mem_append.mp hmem with hmem | hmem
        · exact hinc hmem
        · exact splitFirst_none heq hmem
      rw [split_sep_free hfree]
      simp [initD, lastD]
    · rename_i pre post heq
      obtain ⟨hchunk, hpre⟩ := splitFirst_some heq
      have hlen : post.length < k := by
        rw [← hk]; exact splitFirst_post_length heq
      have hihv := ih post.length hlen post rfl none (by simp)
      simp only [Option.getD_none, List.nil_append] at hihv
      rw [hihv]
      have hx : sep ∉ inc.getD [] ++ pre := by
        intro hmem
        rcases List.mem_append.mp hmem with hmem | hmem
        · exact hinc hmem
        · exact hpre hmem
      have hP : split_sep sep (inc.getD [] ++ chunk) =
          (inc.getD [] ++ pre) :: split_sep sep post := by
        rw [hchunk, show inc.getD [] ++ (pre ++ sep :: post) =
              (inc.getD [] ++ pre) ++ (sep :: post) by simp,
          split_sep_append_free (sep :: post) hx]
        simp only [split_sep, if_pos rfl]
        cases hQ : split_sep sep post with
        | nil => exact absurd hQ (split_sep_ne_nil sep post)
        | cons q qs => simp
      rw [hP, initD_cons_ne (split_sep_ne_nil sep post),
        lastD_cons_ne (split_sep_ne_nil sep post)]

lemma rows_go_spec (chunksize : Nat) (sep : Char) (hcs : 0 < chunksize) :
    ∀ (content : List Char) (inc : Option (List Char)), sep ∉ inc.getD [] →
    rows_go chunksize sep content inc =
      drop_last_empty (split_sep sep (inc.getD [] ++ content)) := by
  intro content
  generalize hk : content.length = k
  induction k using Nat.strong_induction_on generalizing content with
  | _ k ih =>
    intro inc hinc
    unfold rows_go
    by_cases hch : (content.take chunksize).isEmpty
    · have hcontent : content = [] := by
        rcases List.take_eq_nil_iff.mp (List.isEmpty_iff.mp hch) with h | h
        · omega
        · exact h
      subst hcontent
      rw [dif_pos hch, List.append_nil, split_sep_free hinc]
      cases inc with
      | none => simp [drop_last_empty, lastD, initD]
      | some r =>
        simp only [Option.getD_some, drop_last_empty, lastD, initD]
        by_cases hr : r.length ≠ 0
        · have : ¬ (r = []) := by
            intro hh; rw [hh] at hr; simp at hr
          simp [hr, this]
        · have : r = [] := by
            simp only [ne_eq, not_not] at hr
            exact List.length_eq_zero.mp hr
          simp [this]
    · rw [dif_neg hch]
      have hcne : content ≠ [] := by
        intro hh
        rw [hh] at hch
        simp at hch
      rw [rows_inner_spec sep (content.take chunksize) inc hinc]
      have hfree2 : sep ∉ lastD (split_sep sep (inc.getD [] ++ content.take chunksize)) :=
        sep_not_mem_lastD sep _
      have hlen : (content.drop chunksize).length < k := by
        rw [← hk]
        have := List.length_pos.mpr hcne
        simp only [List.length_drop]
        omega
      have hihv := ih (content.drop chunksize).length hlen (content.drop chunksize) rfl
        (some (lastD (split_sep sep (inc.getD [] ++ content.take chunksize)))) (by simpa)
      simp only [Option.getD_some] at hihv
      simp only [hihv]
      rw [show inc.getD [] ++ content =
            (inc.getD [] ++ content.take chunksize) ++ content.drop chunksize by
          rw [List.append_assoc, List.take_append_drop],
        split_sep_append sep (content.drop chunksize) (inc.getD [] ++ content.take chunksize),
        drop_last_empty_append (split_sep_ne_nil sep _)]

lemma join_spec_records (sep : Char) (content : List Char) :
    join_sep sep (spec_records sep content) ++
      (if content.getLast? = some sep then [sep] else []) = content := by
  have hne := split_sep_ne_nil sep content
  have hdecomp := initD_append_lastD hne
  have hcontent := join_sep_split sep content
  have hlastfree := sep_not_mem_lastD sep content
  unfold spec_records drop_last_empty
  by_cases hlast : lastD (split_sep sep content) = []
  · rw [if_pos hlast]
    by_cases hinit : initD (split_sep sep content) = []
    · have hceq : content = [] := by
        have h0 := hcontent
        rw [← hdecomp, hinit, hlast] at h0
        simpa [join_sep] using h0.symm
      subst hceq
      simp [hinit, join_sep]
    · have hcontent2 : content = join_sep sep (initD (split_sep sep content)) ++ [sep] := by
        have h0 := hcontent
        rw [← hdecomp, hlast] at h0
        rw [join_sep_concat, if_neg hinit] at h0
        exact h0.symm
      have hends : content.getLast? = some sep := by
        rw [hcontent2]
        exact List.getLast?_concat _
      rw [if_pos hends]
      exact hcontent2.symm
  · rw [if_neg hlast]
    have hends : ¬ content.getLast? = some sep := by
      intro habs
      by_cases hinit : initD (split_sep sep content) = []
      · have hceq : content = lastD (split_sep sep content) := by
          have h0 := hcontent
          rw [← hdecomp, hinit] at h0
          simpa [join_sep] using h0.symm
        rw [hceq] at habs
        exact hlastfree (List.mem_of_getLast?_eq_some habs)
      · have hc3 : content = join_sep sep (initD (split_sep sep content)) ++
            sep :: lastD (split_sep sep content) := by
          have h0 := hcontent
          rw [← hdecomp] at h0
          rw [join_sep_concat, if_neg hinit] at h0
          exact h0.symm
        have h4 : content.getLast? = (lastD (split_sep sep content)).getLast? := by
          conv_lhs => rw [hc3]
          rw [List.getLast?_append_of_ne_nil _ (by simp)]
          cases hB : lastD (split_sep sep content) with
          | nil => exact absurd hB hlast
          | cons b bs => rw [List.getLast?_cons_cons]
        rw [h4] at habs
        exact hlastfree (List.mem_of_getLast?_eq_some habs)
    rw [if_neg hends, List.append_nil]
    exact hcontent

/-- **C8.** For every stream content and every positive chunk size, the
record iterator `rows` yields exactly the separator-delimited records of
the content in order (each maximal separator-free run between
separators, including empty runs, with a final non-empty carry and no
record for an empty final carry); joining the yielded records with the
separator, re-appending a trailing separator iff the content ends with
one, reproduces the content; and the yielded sequence does not depend on
the chunk size. -/
theorem rows_correct (chunksize : Nat) (sep : Char) (content : List Char)
    (hcs : 0 < chunksize) :
    rows chunksize sep content = spec_records sep content ∧
    join_sep sep (rows chunksize sep content) ++
      (if content.getLast? = some sep then [sep] else []) = content ∧
    (∀ chunksize2, 0 < chunksize2 →
      rows chunksize2 sep content = rows chunksize sep content) := by
  have hmain : ∀ cs, 0 < cs → rows cs sep content = spec_records sep content := by
    intro cs hcs2
    unfold rows spec_records
    have := rows_go_spec cs sep hcs2 content none (by simp)
    simpa using this
  refine ⟨hmain chunksize hcs, ?_, ?_⟩
  · rw [hmain chunksize hcs]
    exact join_spec_records sep content
  · intro cs2 hcs2
    rw [hmain chunksize hcs, hmain cs2 hcs2]

/-- Witness for C8 at a concrete input: chunk size 2, separator LF,
content `"ab" ++ LF ++ "c" ++ LF`. -/
theorem rows_correct_witness :
    rows 2 (Char.ofNat 10) ("ab".data ++ [Char.ofNat 10] ++ "c".data ++ [Char.ofNat 10]) =
      spec_records (Char.ofNat 10)
        ("ab".data ++ [Char.ofNat 10] ++ "c".data ++ [Char.ofNat 10]) ∧
    rows 2 (Char.ofNat 10) ("ab".data ++ [Char.ofNat 10] ++ "c".data ++ [Char.ofNat 10]) =
      ["ab".data, "c".data] :=
  ⟨(rows_correct 2 (Char.ofNat 10) _ (by decide)).1, by
    rw [(rows_correct 2 (Char.ofNat 10)
      ("ab".data ++ [Char.ofNat 10] ++ "c".data ++ [Char.ofNat 10]) (by decide)).1]
    decide⟩

/-- Python `s.split(sep)` for a single-character separator (empty string
gives `[""]`, consecutive separators give empty fields), via the
character-level splitter. -/
def py_split_str (sep : Char) (s : String) : List String :=
  (split_sep sep s.data).map String.mk

/-- Python `s.endswith(t)`. -/
def str_ends_with (s t : String) : Bool :=
  List.isSuffixOf t.data s.data

/-- Python `s.startswith(t)`. -/
def str_starts_with (s t : String) : Bool :=
  List.isPrefixOf t.data s.data

/-! ### Tokens and the clause splitter (`rbql.py` lines 123-301) -/

/-- The token kinds of the lexer (`TokenType`). -/
inductive TokenType
  | RAW
  | STRING_LITERAL
  | WHITESPACE
  | ALPHANUM_RAW
  | SYMBOL_RAW
deriving DecidableEq

/-- A lexer token: a kind and its literal textual content. -/
structure Token where
  ttype : TokenType
  content : String
deriving DecidableEq

/-- `is_boundary(c)` (lines 83-93): any character that is not an ASCII
letter, digit or underscore. -/
def is_boundary (c : Char) : Bool :=
  if c = '_' then false
  else if 'a' ≤ c ∧ c ≤ 'z' then false
  else if 'A' ≤ c ∧ c ≤ 'Z' then false
  else if '0' ≤ c ∧ c ≤ '9' then false
  else true

/-- Value of a non-empty decimal digit string. -/
def decimal_val (l : List Char) : Nat :=
  l.foldl (fun n c => n * 10 + (c.toNat - '0'.toNat)) 0

/-- Matching against `^a([1-9][0-9]*)$` (`column_var_regex`): the column
number on success. -/
def column_var_num (s : String) : Option Nat :=
  match s.data with
  | c :: d :: ds =>
    if c = 'a' ∧ ('1' ≤ d ∧ d ≤ '9') ∧ ds.all (fun c2 => '0' ≤ c2 ∧ c2 ≤ '9')
    then some (decimal_val (d :: ds)) else none
  | _ => none

/-- Matching against `^b([1-9][0-9]*)$` (`bcolumn_var_regex`). -/
def bcolumn_var_num (s : String) : Option Nat :=
  match s.data with
  | c :: d :: ds =>
    if c = 'b' ∧ ('1' ≤ d ∧ d ≤ '9') ∧ ds.all (fun c2 => '0' ≤ c2 ∧ c2 ≤ '9')
    then some (decimal_val (d :: ds)) else none
  | _ => none

/-- `replace_rbql_var(text)` (lines 57-66): `aN ↦ fields[N-1]`,
`bN ↦ bfields[N-1]`, anything else `None`. -/
def replace_rbql_var (text : String) : Option String :=
  match column_var_num text with
  | some n => some ("fields[" ++ toString (n - 1) ++ "]")
  | none =>
    match bcolumn_var_num text with
    | some n => some ("bfields[" ++ toString (n - 1) ++ "]")
    | none => none

/-- `replace_column_vars(tokens)` (lines 207-214): rewrite every
non-string-literal token whose content is a column variable; the Python
in-place mutation is a pointwise map. -/
def replace_column_vars (tokens : List Token) : List Token :=
  tokens.map (fun t =>
    if t.ttype = TokenType.STRING_LITERAL then t
    else
      match replace_rbql_var t.content with
      | some v => { t with content := v }
      | none => t)

/-- Python-style indexing for the neighbour scan of `replace_star_vars`
(`j` may go negative, which means "no neighbour" there because the scan
starts at `j = i - 1 ≥ -1` and decrements at most once). -/
def tget (tokens : List Token) (j : Int) : Option Token :=
  if j < 0 then none else tokens.get? j.toNat

/-- The index examined by the left-neighbour test: `i - 1`, skipping one
whitespace token (content `" "`). -/
def star_left_idx (tokens : List Token) (i : Nat) : Int :=
  if (tget tokens ((i : Int) - 1)).map Token.content = some " "
  then (i : Int) - 1 - 1 else (i : Int) - 1

/-- The left-neighbour test of `replace_star_vars` (lines 222-227): skip
one whitespace token (content `" "`); accept iff there is no neighbour or
it ends with a comma. -/
def star_left_ok (tokens : List Token) (i : Nat) : Bool :=
  match tget tokens (star_left_idx tokens i) with
  | none => true
  | some t => str_ends_with t.content ","

/-- The index examined by the right-neighbour test: `i + 1`, skipping one
whitespace token. -/
def star_right_idx (tokens : List Token) (i : Nat) : Nat :=
  if (tokens.get? (i + 1)).map Token.content = some " " then i + 1 + 1 else i + 1

/-- The right-neighbour test of `replace_star_vars` (lines 229-234). -/
def star_right_ok (tokens : List Token) (i : Nat) : Bool :=
  match tokens.get? (star_right_idx tokens i) with
  | none => true
  | some t => str_starts_with t.content ","

/-- One iteration of the `replace_star_vars` loop at index `i`, operating
on the current (possibly already partially rewritten) token list. -/
def star_step (tokens : List Token) (i : Nat) : List Token :=
  match tokens.get? i with
  | none => tokens
  | some t =>
    if t.ttype = TokenType.STRING_LITERAL then tokens
    else if t.content ≠ "*" then tokens
    else if star_left_ok tokens i && star_right_ok tokens i then
      tokens.set i { t with content := "star_line" }
    else tokens

/-- `replace_star_vars(tokens)` (lines 216-237): the in-place loop over
all indices. -/
def replace_star_vars (tokens : List Token) : List Token :=
  (List.range tokens.length).foldl star_step tokens

/-- `join_tokens(tokens)` (lines 240-241): concatenate contents and
strip. -/
def join_tokens (tokens : List Token) : String :=
  ⟨rstripChars (lstripChars (tokens.foldl (fun acc t => acc ++ t.content.data) []))⟩

/-- A clause keyword phrase (`Pattern`, lines 244-253): its text, its
token rendering (words as `ALPHANUM_RAW`, single spaces as `WHITESPACE`
in between), and the token count. -/
structure Pattern where
  text : String
  ptokens : List Token
  size : Nat
deriving DecidableEq

/-- The token rendering of a phrase's word list. -/
def pattern_token_list : List String → List Token
  | [] => []
  | [w] => [⟨TokenType.ALPHANUM_RAW, w⟩]
  | w :: rest => ⟨TokenType.ALPHANUM_RAW, w⟩ :: ⟨TokenType.WHITESPACE, " "⟩ :: pattern_token_list rest

/-- `Pattern(text)`: split the text on single spaces and interleave
whitespace tokens. -/
def mkPattern (text : String) : Pattern :=
  let toks := pattern_token_list (py_split_str ' ' text)
  ⟨text, toks, toks.length⟩

/-- `tokens[a:b]` for `a ≤ b`. -/
def slice (tokens : List Token) (a b : Nat) : List Token :=
  (tokens.drop a).take (b - a)

/-- The per-pattern test inside `consume_action` (lines 259-267): the
slice of `pattern.size` tokens starting at `idx` must uppercase-equal the
pattern contents and have exactly the pattern's token types; the source
additionally requires `idx + pattern.size < len(tokens)` (note: strictly
less, so a phrase ending exactly at the end of the list never matches). -/
def pattern_matches_at (p : Pattern) (tokens : List Token) (idx : Nat) : Bool :=
  decide (idx + p.size < tokens.length) &&
  decide ((slice tokens idx (idx + p.size)).map (fun t => str_upper t.content) =
    p.ptokens.map Token.content) &&
  decide ((slice tokens idx (idx + p.size)).map Token.ttype = p.ptokens.map Token.ttype)

/-- `consume_action(patterns, tokens, idx)` (lines 256-268): at a string
literal, skip; otherwise return the first pattern of the list that
matches at `idx` (with the strict room requirement), advancing past it;
else advance one token. -/
def consume_action (patterns : List Pattern) (tokens : List Token) (idx : Nat) :
    Option String × Nat :=
  match tokens.get? idx with
  | none => (none, idx + 1)
  | some t =>
    if t.ttype = TokenType.STRING_LITERAL then (none, idx + 1)
    else
      match patterns.find? (fun p => pattern_matches_at p tokens idx) with
      | some p => (some p.text, idx + p.size)
      | none => (none, idx + 1)

/-- The clause phrase list of `separate_actions` (line 284-286), already
in the order produced by `sorted(patterns, key=len, reverse=True)` (all
lengths are distinct, so the stable sort yields exactly this order). -/
def rbql_patterns : List Pattern :=
  [mkPattern "STRICT LEFT JOIN", mkPattern "SELECT DISTINCT", mkPattern "INNER JOIN",
   mkPattern "LEFT JOIN", mkPattern "ORDER BY", mkPattern "SELECT", mkPattern "WHERE"]

/-- `strip_tokens(tokens)` (lines 271-276): drop leading and trailing
tokens whose content is `" "`. -/
def strip_tokens (tokens : List Token) : List Token :=
  ((tokens.dropWhile (fun t => t.content = " ")).reverse.dropWhile
    (fun t => t.content = " ")).reverse

/-- Insertion-ordered dict membership. -/
def dict_contains (d : List (String × List Token)) (k : String) : Bool :=
  d.any (fun e => e.1 = k)

/-- Insertion-ordered dict assignment (`d[k] = v`). -/
def dict_set (d : List (String × List Token)) (k : String) (v : List Token) :
    List (String × List Token) :=
  if dict_contains d k then d.map (fun e => if e.1 = k then (k, v) else e)
  else d ++ [(k, v)]

lemma rbql_patterns_size_pos : ∀ p ∈ rbql_patterns, 1 ≤ p.size := by decide

lemma consume_action_next_gt (tokens : List Token) (idx : Nat) :
    idx < (consume_action rbql_patterns tokens idx).2 := by
  unfold consume_action
  cases tokens.get? idx with
  | none => simp
  | some t =>
    by_cases hlit : t.ttype = TokenType.STRING_LITERAL
    · simp [hlit]
    · simp only [hlit, if_false]
      cases hf : rbql_patterns.find? (fun p => pattern_matches_at p tokens idx) with
      | none => simp
      | some p =>
        have hmem := List.mem_of_find?_eq_some hf
        have hsz := rbql_patterns_size_pos p hmem
        simp
        omega

/-- The commit step of `separate_actions`: store the pending clause's
body `strip_tokens(tokens[k:i])` under the pending keyword. -/
def commit (tokens : List Token) (res : List (String × List Token))
    (prev : Option (String × Nat)) (i : Nat) : List (String × List Token) :=
  match prev with
  | some pk => dict_set res pk.1 (strip_tokens (slice tokens pk.2 i))
  | none => res

/-- The key of the pending clause, as a list. -/
def pend_keys : Option (String × Nat) → List String
  | some pk => [pk.1]
  | none => []

/-- The loop of `separate_actions(tokens)` (lines 279-301): scan the
tokens; on each recognized keyword commit the pending clause body, fail
on a duplicate keyword, and finally commit the trailing body. -/
def separate_actions_go (tokens : List Token) (res : List (String × List Token))
    (prev : Option (String × Nat)) (i : Nat) : Except String (List (String × List Token)) :=
  if h : i < tokens.length then
    match hca : consume_action rbql_patterns tokens i with
    | (none, i2) => separate_actions_go tokens res prev i2
    | (some action, i2) =>
      let res2 := commit tokens res prev i
      if dict_contains res2 action then
        Except.error ("More than one \"" ++ action ++ "\" statements found")
      else separate_actions_go tokens res2 (some (action, i2)) i2
  else
    Except.ok (commit tokens res prev i)
termination_by tokens.length - i
decreasing_by
  · have hgt := consume_action_next_gt tokens i
    rw [hca] at hgt
    simp at hgt
    omega
  · have hgt := consume_action_next_gt tokens i
    rw [hca] at hgt
    simp at hgt
    omega

/-- `separate_actions(tokens)`. -/
def separate_actions (tokens : List Token) : Except String (List (String × List Token)) :=
  separate_actions_go tokens [] none 0

/-- The sequence of keyword phrases the splitter's scan recognizes, in
scan order (derived from `consume_action`, the recognizer). -/
def scan_actions (tokens : List Token) (i : Nat) : List String :=
  if h : i < tokens.length then
    match hca : consume_action rbql_patterns tokens i with
    | (none, i2) => scan_actions tokens i2
    | (some a, i2) => a :: scan_actions tokens i2
  else []
termination_by tokens.length - i
decreasing_by
  all_goals
    have hgt := consume_action_next_gt tokens i
    rw [hca] at hgt
    simp at hgt
    omega

lemma dict_contains_iff (d : List (String × List Token)) (k : String) :
    dict_contains d k = true ↔ k ∈ d.map Prod.fst := by
  unfold dict_contains
  simp [List.any_eq_true, List.mem_map]

lemma commit_keys (tokens : List Token) (res : List (String × List Token))
    (prev : Option (String × Nat)) (i : Nat)
    (h : (res.map Prod.fst ++ pend_keys prev).Nodup) :
    (commit tokens res prev i).map Prod.fst = res.map Prod.fst ++ pend_keys prev := by
  cases prev with
  | none => simp [commit, pend_keys]
  | some pk =>
    have hnotin : pk.1 ∉ res.map Prod.fst := by
      intro hmem
      rcases List.nodup_append.mp h with ⟨-, -, hdisj⟩
      exact (hdisj hmem) (by simp [pend_keys])
    have hnc : ¬ dict_contains res pk.1 = true := by
      rw [dict_contains_iff]
      exact hnotin
    simp only [commit, pend_keys, dict_set, hnc, if_false]
    simp

lemma scan_actions_stop (tokens : List Token) {i : Nat} (h : ¬ i < tokens.length) :
    scan_actions tokens i = [] := by
  rw [scan_actions, dif_neg h]

lemma scan_actions_none_step (tokens : List Token) {i i2 : Nat}
    (h : i < tokens.length) (hca : consume_action rbql_patterns tokens i = (none, i2)) :
    scan_actions tokens i = scan_actions tokens i2 := by
  rw [scan_actions, dif_pos h]
  split
  · rename_i i3 heq
    rw [hca] at heq
    simp only [Prod.mk.injEq] at heq
    rw [heq.2]
  · rename_i a i3 heq
    rw [hca] at heq
    simp at heq

lemma scan_actions_some_step (tokens : List Token) {i i2 : Nat} {a : String}
    (h : i < tokens.length) (hca : consume_action rbql_patterns tokens i = (some a, i2)) :
    scan_actions tokens i = a :: scan_actions tokens i2 := by
  rw [scan_actions, dif_pos h]
  split
  · rename_i i3 heq
    rw [hca] at heq
    simp at heq
  · rename_i a3 i3 heq
    rw [hca] at heq
    simp only [Prod.mk.injEq, Option.some.injEq] at heq
    rw [heq.1, heq.2]

lemma separate_actions_go_stop (tokens : List Token)
    (res : List (String × List Token)) (prev : Option (String × Nat)) {i : Nat}
    (h : ¬ i < tokens.length) :
    separate_actions_go tokens res prev i = Except.ok (commit tokens res prev i) := by
  rw [separate_actions_go, dif_neg h]

lemma separate_actions_go_none_step (tokens : List Token)
    (res : List (String × List Token)) (prev : Option (String × Nat)) {i i2 : Nat}
    (h : i < tokens.length) (hca : consume_action rbql_patterns tokens i = (none, i2)) :
    separate_actions_go tokens res prev i = separate_actions_go tokens res prev i2 := by
  rw [separate_actions_go, dif_pos h]
  split
  · rename_i i3 heq
    rw [hca] at heq
    simp only [Prod.mk.injEq] at heq
    rw [heq.2]
  · rename_i a3 i3 heq
    rw [hca] at heq
    simp at heq

lemma separate_actions_go_some_step (tokens : List Token)
    (res : List (String × List Token)) (prev : Option (String × Nat)) {i i2 : Nat}
    {a : String}
    (h : i < tokens.length) (hca : consume_action rbql_patterns tokens i = (some a, i2)) :
    separate_actions_go tokens res prev i =
      (if dict_contains (commit tokens res prev i) a then
        Except.error ("More than one \"" ++ a ++ "\" statements found")
      else separate_actions_go tokens (commit tokens res prev i) (some (a, i2)) i2) := by
  rw [separate_actions_go, dif_pos h]
  split
  · rename_i i3 heq
    rw [hca] at heq
    simp at heq
  · rename_i a3 i3 heq
    rw [hca] at heq
    simp only [Prod.mk.injEq, Option.some.injEq] at heq
    rw [heq.1, heq.2]

lemma separate_actions_go_ok (tokens : List Token) : ∀ (i : Nat)
    (res : List (String × List Token)) (prev : Option (String × Nat)),
    ((res.map Prod.fst ++ pend_keys prev) ++ scan_actions tokens i).Nodup →
    ∃ m, separate_actions_go tokens res prev i = Except.ok m ∧
      m.map Prod.fst = (res.map Prod.fst ++ pend_keys prev) ++ scan_actions tokens i := by
  intro i
  generalize hk : tokens.length - i = k
  induction k using Nat.strong_induction_on generalizing i with
  | _ k ih =>
    intro res prev hnd
    by_cases h : i < tokens.length
    · cases hca : consume_action rbql_patterns tokens i with
      | mk act i2 =>
        have hgt := consume_action_next_gt tokens i
        rw [hca] at hgt
        simp only at hgt
        cases act with
        | none =>
          rw [separate_actions_go_none_step tokens res prev h hca]
          rw [scan_actions_none_step tokens h hca] at hnd ⊢
          exact ih (tokens.length - i2) (by omega) i2 rfl res prev hnd
        | some a =>
          rw [separate_actions_go_some_step tokens res prev h hca]
          rw [scan_actions_some_step tokens h hca] at hnd ⊢
          have hknown : (res.map Prod.fst ++ pend_keys prev).Nodup :=
            (List.nodup_append.mp hnd).1
          have hck := commit_keys tokens res prev i hknown
          have hanotin : a ∉ res.map Prod.fst ++ pend_keys prev := by
            rcases List.nodup_append.mp hnd with ⟨-, -, hdisj⟩
            intro hmem
            exact (hdisj hmem) (by simp)
          have hnc : ¬ dict_contains (commit tokens res prev i) a = true := by
            rw [dict_contains_iff, hck]
            exact hanotin
          rw [if_neg hnc]
          have hnd2 : (((commit tokens res prev i).map Prod.fst ++
              pend_keys (some (a, i2))) ++ scan_actions tokens i2).Nodup := by
            rw [hck]
            simp only [pend_keys]
            have : (res.map Prod.fst ++ pend_keys prev) ++ a :: scan_actions tokens i2 =
                ((res.map Prod.fst ++ pend_keys prev) ++ [a]) ++ scan_actions tokens i2 := by
              simp
            rw [this] at hnd
            simpa using hnd
          obtain ⟨m, hm, hkeys⟩ := ih (tokens.length - i2) (by omega) i2 rfl
            (commit tokens res prev i) (some (a, i2)) hnd2
          refine ⟨m, hm, ?_⟩
          rw [hkeys, hck]
          simp [pend_keys]
    · rw [separate_actions_go_stop tokens res prev h, scan_actions_stop tokens h]
      have hknown : (res.map Prod.fst ++ pend_keys prev).Nodup := by
        rw [scan_actions_stop tokens h] at hnd
        simpa using hnd
      refine ⟨commit tokens res prev i, rfl, ?_⟩
      rw [commit_keys tokens res prev i hknown]
      simp

lemma separate_actions_go_err (tokens : List Token) : ∀ (i : Nat)
    (res : List (String × List Token)) (prev : Option (String × Nat)),
    (res.map Prod.fst ++ pend_keys prev).Nodup →
    ¬ ((res.map Prod.fst ++ pend_keys prev) ++ scan_actions tokens i).Nodup →
    ∃ X, separate_actions_go tokens res prev i =
        Except.error ("More than one \"" ++ X ++ "\" statements found") ∧
      X ∈ scan_actions tokens i ∧
      (X ∈ res.map Prod.fst ++ pend_keys prev ∨ 2 ≤ (scan_actions tokens i).count X) := by
  intro i
  generalize hk : tokens.length - i = k
  induction k using Nat.strong_induction_on generalizing i with
  | _ k ih =>
    intro res prev hknown hnd
    by_cases h : i < tokens.length
    · cases hca : consume_action rbql_patterns tokens i with
      | mk act i2 =>
        have hgt := consume_action_next_gt tokens i
        rw [hca] at hgt
        simp only at hgt
        cases act with
        | none =>
          rw [separate_actions_go_none_step tokens res prev h hca]
          rw [scan_actions_none_step tokens h hca] at hnd ⊢
          exact ih (tokens.length - i2) (by omega) i2 rfl res prev hknown hnd
        | some a =>
          rw [separate_actions_go_some_step tokens res prev h hca]
          rw [scan_actions_some_step tokens h hca] at hnd ⊢
          have hck := commit_keys tokens res prev i hknown
          by_cases hdup : a ∈ res.map Prod.fst ++ pend_keys prev
          · have hc : dict_contains (commit tokens res prev i) a = true := by
              rw [dict_contains_iff, hck]
              exact hdup
            rw [if_pos hc]
            exact ⟨a, rfl, by simp, Or.inl hdup⟩
          · have hnc : ¬ dict_contains (commit tokens res prev i) a = true := by
              rw [dict_contains_iff, hck]
              exact hdup
            rw [if_neg hnc]
            have hknown2 : ((commit tokens res prev i).map Prod.fst ++
                pend_keys (some (a, i2))).Nodup := by
              rw [hck]
              simp only [pend_keys]
              rw [List.nodup_append]
              refine ⟨hknown, by simp, ?_⟩
              intro x hx
              simp only [List.mem_singleton]
              intro hxa
              rw [hxa] at hx
              exact hdup hx
            have hnd2 : ¬ (((commit tokens res prev i).map Prod.fst ++
                pend_keys (some (a, i2))) ++ scan_actions tokens i2).Nodup := by
              rw [hck]
              simp only [pend_keys]
              intro habs
              apply hnd
              have : (res.map Prod.fst ++ pend_keys prev) ++ a :: scan_actions tokens i2 =
                  ((res.map Prod.fst ++ pend_keys prev) ++ [a]) ++ scan_actions tokens i2 := by
                simp
              rw [this]
              simpa using habs
            obtain ⟨X, hX, hXmem, hXor⟩ := ih (tokens.length - i2) (by omega) i2 rfl
              (commit tokens res prev i) (some (a, i2)) hknown2 hnd2
            refine ⟨X, hX, by simp [hXmem], ?_⟩
            rw [hck] at hXor
            simp only [pend_keys] at hXor
            rcases hXor with hXor | hXor
            · rcases List.mem_append.mp hXor with hXor | hXor
              · exact Or.inl hXor
              · right
                have hXa : X = a := by simpa using hXor
                subst hXa
                have h1 : 1 ≤ (scan_actions tokens i2).count X :=
                  List.one_le_count_iff.mpr hXmem
                rw [List.count_cons_self]
                omega
            · right
              rw [List.count_cons]
              omega
    · exfalso
      rw [scan_actions_stop tokens h] at hnd
      exact hnd (by simpa using hknown)

/-- **C7.** If the same clause keyword phrase is recognized by the scan
at two or more positions, `separate_actions` raises the parsing error
`More than one "<X>" statements found` naming a phrase that repeats, and
never returns a clause map; and every clause map it does return maps
each recognized keyword to at most one body (its keys are distinct). -/
theorem separate_actions_duplicates (tokens : List Token) :
    (¬ (scan_actions tokens 0).Nodup →
      ∃ X, 2 ≤ (scan_actions tokens 0).count X ∧
        separate_actions tokens =
          Except.error ("More than one \"" ++ X ++ "\" statements found")) ∧
    (∀ m, separate_actions tokens = Except.ok m → (m.map Prod.fst).Nodup) := by
  constructor
  · intro hnd
    obtain ⟨X, hX, hXmem, hXor⟩ := separate_actions_go_err tokens 0 [] none
      (by simp [pend_keys]) (by simpa [pend_keys] using hnd)
    refine ⟨X, ?_, hX⟩
    rcases hXor with hXor | hXor
    · simp [pend_keys] at hXor
    · exact hXor
  · intro m hm
    by_cases hnd : (scan_actions tokens 0).Nodup
    · obtain ⟨m2, hm2, hkeys⟩ := separate_actions_go_ok tokens 0 [] none
        (by simpa [pend_keys] using hnd)
      rw [separate_actions] at hm
      rw [hm] at hm2
      injection hm2 with hm2
      rw [← hm2] at hkeys
      rw [hkeys]
      simpa [pend_keys] using hnd
    · obtain ⟨X, hX, hmem2, hor2⟩ := separate_actions_go_err tokens 0 [] none
        (by simp [pend_keys]) (by simpa [pend_keys] using hnd)
      rw [separate_actions] at hm
      rw [hm] at hX
      exact absurd hX (by simp)

/-- A token list in which `SELECT` is recognized at two positions:
`select x select y`. -/
def dup_example_tokens : List Token :=
  [⟨TokenType.ALPHANUM_RAW, "select"⟩, ⟨TokenType.WHITESPACE, " "⟩,
   ⟨TokenType.ALPHANUM_RAW, "x"⟩, ⟨TokenType.WHITESPACE, " "⟩,
   ⟨TokenType.ALPHANUM_RAW, "select"⟩, ⟨TokenType.WHITESPACE, " "⟩,
   ⟨TokenType.ALPHANUM_RAW, "y"⟩]

lemma dup_example_scan : scan_actions dup_example_tokens 0 = ["SELECT", "SELECT"] := by
  rw [scan_actions_some_step dup_example_tokens (by decide)
    (show consume_action rbql_patterns dup_example_tokens 0 = (some "SELECT", 1) by decide)]
  rw [scan_actions_none_step dup_example_tokens (by decide)
    (show consume_action rbql_patterns dup_example_tokens 1 = (none, 2) by decide)]
  rw [scan_actions_none_step dup_example_tokens (by decide)
    (show consume_action rbql_patterns dup_example_tokens 2 = (none, 3) by decide)]
  rw [scan_actions_none_step dup_example_tokens (by decide)
    (show consume_action rbql_patterns dup_example_tokens 3 = (none, 4) by decide)]
  rw [scan_actions_some_step dup_example_tokens (by decide)
    (show consume_action rbql_patterns dup_example_tokens 4 = (some "SELECT", 5) by decide)]
  rw [scan_actions_none_step dup_example_tokens (by decide)
    (show consume_action rbql_patterns dup_example_tokens 5 = (none, 6) by decide)]
  rw [scan_actions_none_step dup_example_tokens (by decide)
    (show consume_action rbql_patterns dup_example_tokens 6 = (none, 7) by decide)]
  rw [scan_actions_stop dup_example_tokens (by decide)]

/-- Witness for C7: the token list `select x select y` has `SELECT`
recognized at two positions; `separate_actions` raises the duplicate
error. -/
theorem separate_actions_duplicates_witness :
    ∃ X, 2 ≤ (scan_actions dup_example_tokens 0).count X ∧
      separate_actions dup_example_tokens =
        Except.error ("More than one \"" ++ X ++ "\" statements found") :=
  (separate_actions_duplicates dup_example_tokens).1 (by rw [dup_example_scan]; decide)

lemma char_toNat_inj {c d : Char} (h : c.toNat = d.toNat) : c = d :=
  Char.ext (UInt32.toNat.inj h)

lemma char_le_iff_toNat {c d : Char} : c ≤ d ↔ c.toNat ≤ d.toNat := by
  rw [Char.le_def, UInt32.le_def]
  rfl

lemma char_ofNat_toNat {n : Nat} (h : n < 255) : (Char.ofNat n).toNat = n := by
  have hval : n.isValidChar := Or.inl (by omega)
  rw [Char.ofNat, dif_pos hval]
  simp [Char.ofNatAux, Char.toNat, UInt32.toNat, BitVec.toNat_ofNatLt]

/-- Case analysis for `char_upper`: either the character is a lowercase
ASCII letter and is shifted down by 32, or it is returned unchanged. -/
lemma char_upper_cases (c : Char) :
    (97 ≤ c.toNat ∧ c.toNat ≤ 122 ∧ (char_upper c).toNat = c.toNat - 32) ∨
    (¬ (97 ≤ c.toNat ∧ c.toNat ≤ 122) ∧ char_upper c = c) := by
  unfold char_upper
  by_cases h : 'a' ≤ c ∧ c ≤ 'z'
  · left
    have h1 : 97 ≤ c.toNat := char_le_iff_toNat.mp h.1
    have h2 : c.toNat ≤ 122 := char_le_iff_toNat.mp h.2
    rw [if_pos h]
    exact ⟨h1, h2, char_ofNat_toNat (by omega)⟩
  · right
    have : ¬ (97 ≤ c.toNat ∧ c.toNat ≤ 122) := by
      intro hh
      exact h ⟨char_le_iff_toNat.mpr hh.1, char_le_iff_toNat.mpr hh.2⟩
    rw [if_neg h]
    exact ⟨this, rfl⟩

lemma is_boundary_iff_toNat (c : Char) :
    is_boundary c = true ↔
      ¬ (c.toNat = 95 ∨ (97 ≤ c.toNat ∧ c.toNat ≤ 122) ∨
         (65 ≤ c.toNat ∧ c.toNat ≤ 90) ∨ (48 ≤ c.toNat ∧ c.toNat ≤ 57)) := by
  unfold is_boundary
  have h95 : (c = '_') ↔ c.toNat = 95 := by
    constructor
    · intro h; rw [h]; rfl
    · intro h; exact char_toNat_inj h
  split_ifs with h1 h2 h3 h4
  · apply iff_of_false (by simp)
    exact not_not_intro (Or.inl (h95.mp h1))
  · apply iff_of_false (by simp)
    exact not_not_intro (Or.inr (Or.inl
      ⟨char_le_iff_toNat.mp h2.1, char_le_iff_toNat.mp h2.2⟩))
  · apply iff_of_false (by simp)
    exact not_not_intro (Or.inr (Or.inr (Or.inl
      ⟨char_le_iff_toNat.mp h3.1, char_le_iff_toNat.mp h3.2⟩)))
  · apply iff_of_false (by simp)
    exact not_not_intro (Or.inr (Or.inr (Or.inr
      ⟨char_le_iff_toNat.mp h4.1, char_le_iff_toNat.mp h4.2⟩)))
  · apply iff_of_true rfl
    intro habs
    rcases habs with hh | hh | hh | hh
    · exact h1 (h95.mpr hh)
    · exact h2 ⟨char_le_iff_toNat.mpr hh.1, char_le_iff_toNat.mpr hh.2⟩
    · exact h3 ⟨char_le_iff_toNat.mpr hh.1, char_le_iff_toNat.mpr hh.2⟩
    · exact h4 ⟨char_le_iff_toNat.mpr hh.1, char_le_iff_toNat.mpr hh.2⟩

/-- A well-formed ("normalized") token, as the lexer pipeline produces
them: no `RAW` survives `tokenize_terms`; whitespace tokens are a single
space; alphanumeric tokens are non-empty runs of non-boundary characters;
symbol tokens are a single non-space boundary character; string literals
start with a quote. -/
def wf_token (t : Token) : Bool :=
  match t.ttype with
  | TokenType.RAW => false
  | TokenType.WHITESPACE => t.content = " "
  | TokenType.ALPHANUM_RAW =>
    decide (t.content ≠ "") && t.content.data.all (fun c => !is_boundary c)
  | TokenType.SYMBOL_RAW =>
    match t.content.data with
    | [c] => is_boundary c && decide (c ≠ ' ')
    | _ => false
  | TokenType.STRING_LITERAL =>
    match t.content.data with
    | c :: _ => c = squote || c = dquote
    | [] => false

/-- Shape of the tokens occurring in clause phrases: either a single
space of type `WHITESPACE`, or an `ALPHANUM_RAW` word of uppercase ASCII
letters. -/
def pattern_shaped (t : Token) : Bool :=
  (decide (t.ttype = TokenType.WHITESPACE) && decide (t.content = " ")) ||
  (decide (t.ttype = TokenType.ALPHANUM_RAW) && decide (t.content ≠ "") &&
    t.content.data.all (fun c => 65 ≤ c.toNat && c.toNat ≤ 90))

lemma rbql_patterns_shaped : ∀ p ∈ rbql_patterns, p.ptokens.all pattern_shaped = true := by
  decide

lemma str_upper_data (s : String) : (str_upper s).data = s.data.map char_upper := rfl

/-- The pointwise core of C2: under well-formedness, a content match
against a phrase token forces the token type, provided the token is not a
string literal. -/
lemma ttype_eq_of_content_match {t pt : Token} (hwf : wf_token t = true)
    (hsh : pattern_shaped pt = true) (hc : str_upper t.content = pt.content)
    (hnl : t.ttype ≠ TokenType.STRING_LITERAL) : t.ttype = pt.ttype := by
  have hdata : t.content.data.map char_upper = pt.content.data := by
    rw [← str_upper_data, hc]
  have h32 : (' ').toNat = 32 := rfl
  have hsp : (" " : String).data = [' '] := rfl
  unfold pattern_shaped at hsh
  simp only [Bool.or_eq_true, Bool.and_eq_true, decide_eq_true_eq] at hsh
  unfold wf_token at hwf
  rcases hsh with ⟨hty, hws⟩ | ⟨⟨hty, hne⟩, hup⟩
  · rw [hty]
    rw [hws, hsp] at hdata
    cases htt : t.ttype <;>
      simp only [htt, Bool.and_eq_true, decide_eq_true_eq, Bool.false_eq_true,
        List.all_eq_true] at hwf
    · exact absurd htt hnl
    · rfl
    · exfalso
      rcases hl : t.content.data with _ | ⟨c, rest⟩
      · rw [hl] at hdata
        simp at hdata
      · rw [hl, List.map_cons] at hdata
        simp only [List.cons.injEq] at hdata
        obtain ⟨hcu, -⟩ := hdata
        have hword := hwf.2 c (by rw [hl]; simp)
        simp only [Bool.not_eq_true'] at hword
        rcases char_upper_cases c with ⟨h97, h122, hnu⟩ | ⟨-, heq⟩
        · rw [hcu, h32] at hnu
          omega
        · rw [heq] at hcu
          rw [hcu] at hword
          simp [is_boundary] at hword
    · exfalso
      rcases hl : t.content.data with _ | ⟨c, rest⟩ <;> rw [hl] at hwf
      · simp at hwf
      · rcases rest with _ | ⟨c2, rest2⟩
        · simp only [Bool.and_eq_true, decide_eq_true_eq] at hwf
          rw [hl, List.map_cons] at hdata
          simp only [List.cons.injEq] at hdata
          obtain ⟨hcu, -⟩ := hdata
          rcases char_upper_cases c with ⟨h97, h122, -⟩ | ⟨-, heq⟩
          · exact (is_boundary_iff_toNat c).mp hwf.1 (Or.inr (Or.inl ⟨h97, h122⟩))
          · rw [heq] at hcu
            exact hwf.2 hcu
        · simp at hwf
  · rw [hty]
    rw [List.all_eq_true] at hup
    cases htt : t.ttype <;>
      simp only [htt, Bool.and_eq_true, decide_eq_true_eq, Bool.false_eq_true,
        List.all_eq_true] at hwf
    · exact absurd htt hnl
    · exfalso
      rw [hwf, hsp, List.map_cons, List.map_nil] at hdata
      rcases hp : pt.content.data with _ | ⟨d, ds⟩ <;> rw [hp] at hdata
      · simp at hdata
      · simp only [List.cons.injEq] at hdata
        obtain ⟨hdu, -⟩ := hdata
        have hd := hup d (by rw [hp]; simp)
        simp only [Bool.and_eq_true, decide_eq_true_eq] at hd
        rcases char_upper_cases ' ' with ⟨h97, -, -⟩ | ⟨-, heq⟩
        · rw [h32] at h97
          omega
        · rw [heq] at hdu
          have hd32 : d.toNat = 32 := by
            rw [← hdu]
            exact h32
          omega
    · rfl
    · exfalso
      rcases hl : t.content.data with _ | ⟨c, rest⟩ <;> rw [hl] at hwf
      · simp at hwf
      · rcases rest with _ | ⟨c2, rest2⟩
        · simp only [Bool.and_eq_true, decide_eq_true_eq] at hwf
          have hb := (is_boundary_iff_toNat c).mp hwf.1
          rcases char_upper_cases c with ⟨h97, h122, -⟩ | ⟨-, heq⟩
          · exact hb (Or.inr (Or.inl ⟨h97, h122⟩))
          · rw [hl, List.map_cons, heq] at hdata
            rcases hp : pt.content.data with _ | ⟨d, ds⟩ <;> rw [hp] at hdata
            · simp at hdata
            · simp only [List.cons.injEq] at hdata
              obtain ⟨hcd, -⟩ := hdata
              have hd := hup d (by rw [hp]; simp)
              simp only [Bool.and_eq_true, decide_eq_true_eq] at hd
              rw [hcd] at hb
              exact hb (Or.inr (Or.inr (Or.inl ⟨hd.1, hd.2⟩)))
        · simp at hwf

/-- The recognition condition exactly as the claim states it: the tokens
starting at `idx` (which must exist) uppercase-match the phrase's words
and have non-string-literal token types. -/
def claim_recognized (p : Pattern) (tokens : List Token) (idx : Nat) : Bool :=
  decide (idx + p.size ≤ tokens.length) &&
  decide ((slice tokens idx (idx + p.size)).map (fun t => str_upper t.content) =
    p.ptokens.map Token.content) &&
  (slice tokens idx (idx + p.size)).all (fun t => decide (t.ttype ≠ TokenType.STRING_LITERAL))

/-- The amended recognition condition: as in the claim, but additionally
at least one token must follow the phrase (`idx + size < length`,
mirroring the source's strict bound). -/
def amended_recognized (p : Pattern) (tokens : List Token) (idx : Nat) : Bool :=
  decide (idx + p.size < tokens.length) &&
  decide ((slice tokens idx (idx + p.size)).map (fun t => str_upper t.content) =
    p.ptokens.map Token.content) &&
  (slice tokens idx (idx + p.size)).all (fun t => decide (t.ttype ≠ TokenType.STRING_LITERAL))

lemma types_eq_iff_all_nonlit : ∀ (ts pts : List Token),
    (∀ t ∈ ts, wf_token t = true) → (∀ pt ∈ pts, pattern_shaped pt = true) →
    ts.map (fun t => str_upper t.content) = pts.map Token.content →
    ((ts.map Token.ttype = pts.map Token.ttype) ↔
      (∀ t ∈ ts, t.ttype ≠ TokenType.STRING_LITERAL)) := by
  intro ts
  induction ts with
  | nil =>
    intro pts _ _ hc
    cases pts with
    | nil => simp
    | cons pt pts => simp at hc
  | cons t ts ih =>
    intro pts hwf hsh hc
    cases pts with
    | nil => simp at hc
    | cons pt pts =>
      simp only [List.map_cons, List.cons.injEq] at hc
      have hih := ih pts (fun x hx => hwf x (by simp [hx]))
        (fun x hx => hsh x (by simp [hx])) hc.2
      constructor
      · intro h x hx
        simp only [List.map_cons, List.cons.injEq] at h
        rcases List.mem_cons.mp hx with hx | hx
        · subst hx
          rw [h.1]
          have hshape := hsh pt (by simp)
          unfold pattern_shaped at hshape
          simp only [Bool.or_eq_true, Bool.and_eq_true, decide_eq_true_eq] at hshape
          rcases hshape with ⟨hty, -⟩ | ⟨⟨hty, -⟩, -⟩ <;> simp [hty]
        · exact (hih.mp h.2) x hx
      · intro h
        simp only [List.map_cons, List.cons.injEq]
        exact ⟨ttype_eq_of_content_match (hwf t (by simp)) (hsh pt (by simp)) hc.1
          (h t (by simp)), hih.mpr (fun x hx => h x (by simp [hx]))⟩

lemma mem_of_mem_slice {t : Token} {tokens : List Token} {a b : Nat}
    (h : t ∈ slice tokens a b) : t ∈ tokens := by
  unfold slice at h
  exact List.mem_of_mem_drop (List.mem_of_mem_take h)

lemma pattern_matches_iff_amended (p : Pattern) (hp : p ∈ rbql_patterns)
    (tokens : List Token) (hwf : ∀ t ∈ tokens, wf_token t = true) (idx : Nat) :
    pattern_matches_at p tokens idx = amended_recognized p tokens idx := by
  unfold pattern_matches_at amended_recognized
  by_cases hA : idx + p.size < tokens.length
  · by_cases hB : (slice tokens idx (idx + p.size)).map (fun t => str_upper t.content) =
        p.ptokens.map Token.content
    · have hshapes : ∀ pt ∈ p.ptokens, pattern_shaped pt = true := by
        have := rbql_patterns_shaped p hp
        rw [List.all_eq_true] at this
        exact this
      have hiff := types_eq_iff_all_nonlit (slice tokens idx (idx + p.size)) p.ptokens
        (fun t ht => hwf t (mem_of_mem_slice ht)) hshapes hB
      have hC : (decide ((slice tokens idx (idx + p.size)).map Token.ttype =
            p.ptokens.map Token.ttype) : Bool) =
          (slice tokens idx (idx + p.size)).all
            (fun t => decide (t.ttype ≠ TokenType.STRING_LITERAL)) := by
        cases hall : (slice tokens idx (idx + p.size)).all
            (fun t => decide (t.ttype ≠ TokenType.STRING_LITERAL)) with
        | false =>
          simp only [decide_eq_false_iff_not]
          intro habs
          have hall2 := hiff.mp habs
          have htrue : (slice tokens idx (idx + p.size)).all
              (fun t => decide (t.ttype ≠ TokenType.STRING_LITERAL)) = true := by
            rw [List.all_eq_true]
            intro x hx
            simpa using hall2 x hx
          rw [hall] at htrue
          exact absurd htrue (by simp)
        | true =>
          simp only [decide_eq_true_eq]
          rw [List.all_eq_true] at hall
          exact hiff.mpr (fun x hx => by simpa using hall x hx)
      rw [hC, hB]
    · simp [hB]
  · simp [hA]

lemma find?_congr {α : Type} (f g : α → Bool) : ∀ (l : List α),
    (∀ x ∈ l, f x = g x) → l.find? f = l.find? g := by
  intro l
  induction l with
  | nil => intro _; rfl
  | cons x xs ih =>
    intro h
    have hx := h x (by simp)
    simp only [List.find?]
    rw [hx]
    cases g x with
    | false => exact ih (fun y hy => h y (by simp [hy]))
    | true => rfl

/-- **C2 (amended).** On a well-formed (normalized) token list, the
clause splitter recognizes a phrase at a position iff the tokens there
uppercase-match the phrase's words with non-string-literal token types
AND at least one token follows the phrase (a phrase reaching exactly the
end of the token list is NOT recognized — this is the one amendment to
the claim); on a prefix tie the longest phrase wins, because the
patterns are tried longest-first and the first match is taken. -/
theorem consume_action_amended (tokens : List Token)
    (hwf : ∀ t ∈ tokens, wf_token t = true) (idx : Nat) :
    consume_action rbql_patterns tokens idx =
      (match rbql_patterns.find? (fun p => amended_recognized p tokens idx) with
       | some p => (some p.text, idx + p.size)
       | none => (none, idx + 1)) := by
  unfold consume_action
  have hcong : rbql_patterns.find? (fun p => pattern_matches_at p tokens idx) =
      rbql_patterns.find? (fun p => amended_recognized p tokens idx) :=
    find?_congr _ _ rbql_patterns (fun p hp => pattern_matches_iff_amended p hp tokens hwf idx)
  cases hg : tokens.get? idx with
  | none =>
    have hlen : tokens.length ≤ idx := List.get?_eq_none.mp hg
    have hnone : rbql_patterns.find? (fun p => amended_recognized p tokens idx) = none := by
      rw [List.find?_eq_none]
      intro p _
      simp only [amended_recognized, Bool.and_eq_true, decide_eq_true_eq, not_and]
      intro h1
      omega
    rw [hnone]
  | some t =>
    by_cases hlit : t.ttype = TokenType.STRING_LITERAL
    · show (if t.ttype = TokenType.STRING_LITERAL then ((none : Option String), idx + 1)
        else match rbql_patterns.find? (fun p => pattern_matches_at p tokens idx) with
          | some p => (some p.text, idx + p.size)
          | none => (none, idx + 1)) = _
      rw [if_pos hlit]
      have hnone : rbql_patterns.find? (fun p => amended_recognized p tokens idx) = none := by
        rw [List.find?_eq_none]
        intro p hp
        have hsz := rbql_patterns_size_pos p hp
        simp only [amended_recognized, Bool.and_eq_true, decide_eq_true_eq, not_and,
          List.all_eq_true]
        intro hband hall
        have hlt : idx < tokens.length := by
          have := hband.1
          omega
        have hteq : tokens[idx] = t := by
          obtain ⟨hlt2, hget⟩ := List.get?_eq_some.mp hg
          rw [← hget]
          simp
        have hd : tokens.drop idx = t :: tokens.drop (idx + 1) := by
          rw [List.drop_eq_getElem_cons hlt, hteq]
        have hmem : t ∈ slice tokens idx (idx + p.size) := by
          unfold slice
          rw [hd, Nat.add_sub_cancel_left]
          rcases hps : p.size with _ | k
          · omega
          · simp
        exact hall t hmem hlit
      rw [hnone]
    · show (if t.ttype = TokenType.STRING_LITERAL then ((none : Option String), idx + 1)
        else match rbql_patterns.find? (fun p => pattern_matches_at p tokens idx) with
          | some p => (some p.text, idx + p.size)
          | none => (none, idx + 1)) = _
      rw [if_neg hlit, hcong]

/-- **C2 (counterexample).** The single-token list `[select]` satisfies
the claim's recognition condition for the phrase `SELECT` at position 0
(contents uppercase-match, the type is non-literal, and the phrase's
tokens extend exactly to the end of the list), yet `consume_action` does
not recognize it: it returns `(none, 1)`, because the source requires
`idx + pattern.size < len(tokens)` strictly. -/
theorem consume_action_counterexample :
    claim_recognized (mkPattern "SELECT") [⟨TokenType.ALPHANUM_RAW, "select"⟩] 0 = true ∧
    mkPattern "SELECT" ∈ rbql_patterns ∧
    consume_action rbql_patterns [⟨TokenType.ALPHANUM_RAW, "select"⟩] 0 = (none, 1) :=
  ⟨by decide, by decide, by decide⟩

/-- A small well-formed token list (`select a1`) for the C2 witness. -/
def wf_example_tokens : List Token :=
  [⟨TokenType.ALPHANUM_RAW, "select"⟩, ⟨TokenType.WHITESPACE, " "⟩,
   ⟨TokenType.ALPHANUM_RAW, "a1"⟩]

/-- Witness for C2: the amended characterization applied at the concrete
well-formed list `select a1`, where `SELECT` is recognized at position 0. -/
theorem consume_action_amended_witness :
    consume_action rbql_patterns wf_example_tokens 0 =
      (match rbql_patterns.find? (fun p => amended_recognized p wf_example_tokens 0) with
       | some p => (some p.text, 0 + p.size)
       | none => (none, 0 + 1)) ∧
    consume_action rbql_patterns wf_example_tokens 0 = (some "SELECT", 1) :=
  ⟨consume_action_amended wf_example_tokens (by decide) 0, by decide⟩

/-! ### C9: the rewriters never touch string literals -/

/-- Relation between an original token and its possibly-rewritten form
under the star rewriter: unchanged, or a star replaced by `star_line`. -/
def star_rel (t0 t : Token) : Prop :=
  t = t0 ∨ (t0.ttype ≠ TokenType.STRING_LITERAL ∧ t0.content = "*" ∧
    t = { t0 with content := "star_line" })

/-- As `star_rel`, additionally recording that the replacement happened
at a position that is isolated in the original list. -/
def star_rel_iso (l0 : List Token) (i : Nat) (t0 t : Token) : Prop :=
  t = t0 ∨ (t0.ttype ≠ TokenType.STRING_LITERAL ∧ t0.content = "*" ∧
    star_left_ok l0 i = true ∧ star_right_ok l0 i = true ∧
    t = { t0 with content := "star_line" })

/-- Pointwise `star_rel` between two token lists of equal length. -/
def list_star_rel (l0 l : List Token) : Prop :=
  l.length = l0.length ∧
  ∀ i t0 t, l0.get? i = some t0 → l.get? i = some t → star_rel t0 t

/-- Pointwise `star_rel_iso`. -/
def list_star_rel_iso (l0 l : List Token) : Prop :=
  l.length = l0.length ∧
  ∀ i t0 t, l0.get? i = some t0 → l.get? i = some t → star_rel_iso l0 i t0 t

lemma list_star_rel_iso_weaken {l0 l : List Token} (h : list_star_rel_iso l0 l) :
    list_star_rel l0 l := by
  refine ⟨h.1, fun i t0 t h0 h1 => ?_⟩
  rcases h.2 i t0 t h0 h1 with heq | ⟨h2, h3, -, -, h4⟩
  · exact Or.inl heq
  · exact Or.inr ⟨h2, h3, h4⟩

lemma star_rel_content_facts {t0 t : Token} (h : star_rel t0 t) :
    ((t.content = " ") ↔ (t0.content = " ")) ∧
    str_ends_with t.content "," = str_ends_with t0.content "," ∧
    str_starts_with t.content "," = str_starts_with t0.content "," := by
  rcases h with rfl | ⟨-, h0, rfl⟩
  · exact ⟨Iff.rfl, rfl, rfl⟩
  · rw [h0]
    refine ⟨by simp, ?_, ?_⟩
    · show str_ends_with "star_line" "," = str_ends_with "*" ","
      decide
    · show str_starts_with "star_line" "," = str_starts_with "*" ","
      decide

lemma tget_rel {l0 l : List Token} (h : list_star_rel l0 l) (j : Int) :
    (tget l j = none ∧ tget l0 j = none) ∨
    (∃ t0 t, tget l0 j = some t0 ∧ tget l j = some t ∧ star_rel t0 t) := by
  have hlen := h.1
  unfold tget
  split_ifs
  · exact Or.inl ⟨rfl, rfl⟩
  · cases hg0 : l0.get? j.toNat with
    | none =>
      left
      refine ⟨?_, rfl⟩
      rw [List.get?_eq_none] at hg0 ⊢
      omega
    | some t0 =>
      cases hg : l.get? j.toNat with
      | none =>
        exfalso
        obtain ⟨hlt, -⟩ := List.get?_eq_some.mp hg0
        rw [List.get?_eq_none] at hg
        omega
      | some t => exact Or.inr ⟨t0, t, rfl, rfl, h.2 j.toNat t0 t hg0 hg⟩

lemma get?_rel {l0 l : List Token} (h : list_star_rel l0 l) (j : Nat) :
    (l.get? j = none ∧ l0.get? j = none) ∨
    (∃ t0 t, l0.get? j = some t0 ∧ l.get? j = some t ∧ star_rel t0 t) := by
  have hlen := h.1
  cases hg0 : l0.get? j with
  | none =>
    left
    refine ⟨?_, rfl⟩
    rw [List.get?_eq_none] at hg0 ⊢
    omega
  | some t0 =>
    cases hg : l.get? j with
    | none =>
      exfalso
      obtain ⟨hlt, -⟩ := List.get?_eq_some.mp hg0
      rw [List.get?_eq_none] at hg
      omega
    | some t => exact Or.inr ⟨t0, t, rfl, rfl, h.2 j t0 t hg0 hg⟩

lemma star_left_idx_congr {l0 l : List Token} (h : list_star_rel l0 l) (i : Nat) :
    star_left_idx l i = star_left_idx l0 i := by
  unfold star_left_idx
  have hcond : ((tget l ((i : Int) - 1)).map Token.content = some " ") ↔
      ((tget l0 ((i : Int) - 1)).map Token.content = some " ") := by
    rcases tget_rel h ((i : Int) - 1) with ⟨ha, hb⟩ | ⟨t0, t, ha, hb, hrel⟩
    · rw [ha, hb]
    · rw [ha, hb]
      simp only [Option.map_some', Option.some.injEq]
      exact (star_rel_content_facts hrel).1
  by_cases hc : (tget l0 ((i : Int) - 1)).map Token.content = some " "
  · rw [if_pos (hcond.mpr hc), if_pos hc]
  · rw [if_neg (fun hh => hc (hcond.mp hh)), if_neg hc]

lemma star_left_ok_congr {l0 l : List Token} (h : list_star_rel l0 l) (i : Nat) :
    star_left_ok l i = star_left_ok l0 i := by
  unfold star_left_ok
  rw [star_left_idx_congr h i]
  rcases tget_rel h (star_left_idx l0 i) with ⟨ha, hb⟩ | ⟨t0, t, ha, hb, hrel⟩
  · rw [ha, hb]
  · rw [ha, hb]
    exact (star_rel_content_facts hrel).2.1

lemma star_right_idx_congr {l0 l : List Token} (h : list_star_rel l0 l) (i : Nat) :
    star_right_idx l i = star_right_idx l0 i := by
  unfold star_right_idx
  have hcond : ((l.get? (i + 1)).map Token.content = some " ") ↔
      ((l0.get? (i + 1)).map Token.content = some " ") := by
    rcases get?_rel h (i + 1) with ⟨ha, hb⟩ | ⟨t0, t, ha, hb, hrel⟩
    · rw [ha, hb]
    · rw [ha, hb]
      simp only [Option.map_some', Option.some.injEq]
      exact (star_rel_content_facts hrel).1
  by_cases hc : (l0.get? (i + 1)).map Token.content = some " "
  · rw [if_pos (hcond.mpr hc), if_pos hc]
  · rw [if_neg (fun hh => hc (hcond.mp hh)), if_neg hc]

lemma star_right_ok_congr {l0 l : List Token} (h : list_star_rel l0 l) (i : Nat) :
    star_right_ok l i = star_right_ok l0 i := by
  unfold star_right_ok
  rw [star_right_idx_congr h i]
  rcases get?_rel h (star_right_idx l0 i) with ⟨ha, hb⟩ | ⟨t0, t, ha, hb, hrel⟩
  · rw [ha, hb]
  · rw [ha, hb]
    exact (star_rel_content_facts hrel).2.2

lemma star_step_rel_iso {l0 l : List Token} (h : list_star_rel_iso l0 l) (j : Nat) :
    list_star_rel_iso l0 (star_step l j) := by
  unfold star_step
  cases hg : l.get? j with
  | none => exact h
  | some t =>
    show list_star_rel_iso l0
      (if t.ttype = TokenType.STRING_LITERAL then l
        else if t.content ≠ "*" then l
        else if (star_left_ok l j && star_right_ok l j) = true then
          l.set j { t with content := "star_line" }
        else l)
    by_cases h1 : t.ttype = TokenType.STRING_LITERAL
    · rw [if_pos h1]; exact h
    · rw [if_neg h1]
      by_cases h2 : t.content ≠ "*"
      · rw [if_pos h2]; exact h
      · rw [if_neg h2]
        simp only [ne_eq, not_not] at h2
        by_cases h3 : (star_left_ok l j && star_right_ok l j) = true
        · rw [if_pos h3]
          simp only [Bool.and_eq_true] at h3
          refine ⟨by simp [h.1], fun i t0 t' h0 h1' => ?_⟩
          by_cases hij : i = j
          · subst hij
            obtain ⟨hlt, -⟩ := List.get?_eq_some.mp hg
            rw [List.get?_eq_getElem?] at h1'
            rw [List.getElem?_set_self hlt] at h1'
            injection h1' with h1'
            have hrel := h.2 i t0 t h0 hg
            rcases hrel with heq | ⟨-, -, -, -, hrepl⟩
            · subst heq
              right
              refine ⟨h1, h2, ?_, ?_, h1'.symm⟩
              · rw [← star_left_ok_congr (list_star_rel_iso_weaken h) i]
                exact h3.1
              · rw [← star_right_ok_congr (list_star_rel_iso_weaken h) i]
                exact h3.2
            · exfalso
              rw [hrepl] at h2
              simp at h2
          · rw [List.get?_eq_getElem?, List.getElem?_set_ne (fun hh => hij hh.symm),
              ← List.get?_eq_getElem?] at h1'
            exact h.2 i t0 t' h0 h1'
        · rw [if_neg h3]; exact h

lemma foldl_star_step_rel_iso (l0 : List Token) : ∀ (js : List Nat) (l : List Token),
    list_star_rel_iso l0 l → list_star_rel_iso l0 (js.foldl star_step l) := by
  intro js
  induction js with
  | nil => intro l h; exact h
  | cons j js ih =>
    intro l h
    exact ih (star_step l j) (star_step_rel_iso h j)

lemma replace_star_vars_rel (tokens : List Token) :
    list_star_rel_iso tokens (replace_star_vars tokens) := by
  unfold replace_star_vars
  exact foldl_star_step_rel_iso tokens (List.range tokens.length) tokens
    ⟨rfl, fun i t0 t h0 h1 => by rw [h0] at h1; injection h1 with h1; exact Or.inl h1.symm⟩

/-- **C9.** The column rewriter and the star rewriter leave every token
of type `STRING_LITERAL` completely unchanged; a token is ever changed
only if it is a non-string-literal whose whole content matches
`^a[1-9][0-9]*$` or `^b[1-9][0-9]*$` (column pass, replaced by its field
reference) or is a `*` token isolated between commas/ends (star pass,
replaced by `star_line`). -/
theorem rewriters_preserve_string_literals (tokens : List Token) (i : Nat) (t : Token)
    (hg : tokens.get? i = some t) :
    (t.ttype = TokenType.STRING_LITERAL →
      (replace_column_vars tokens).get? i = some t ∧
      (replace_star_vars tokens).get? i = some t) ∧
    (∀ t', (replace_column_vars tokens).get? i = some t' → t' ≠ t →
      t.ttype ≠ TokenType.STRING_LITERAL ∧ (replace_rbql_var t.content).isSome ∧
      t' = { t with content := (replace_rbql_var t.content).getD t.content }) ∧
    (∀ t', (replace_star_vars tokens).get? i = some t' → t' ≠ t →
      t.ttype ≠ TokenType.STRING_LITERAL ∧ t.content = "*" ∧
      star_left_ok tokens i = true ∧ star_right_ok tokens i = true ∧
      t' = { t with content := "star_line" }) := by
  have hrel := replace_star_vars_rel tokens
  have hcol : (replace_column_vars tokens).get? i =
      (tokens.get? i).map (fun t =>
        if t.ttype = TokenType.STRING_LITERAL then t
        else
          match replace_rbql_var t.content with
          | some v => { t with content := v }
          | none => t) := by
    unfold replace_column_vars
    rw [List.get?_map]
  refine ⟨?_, ?_, ?_⟩
  · intro hlit
    constructor
    · rw [hcol, hg]
      simp [hlit]
    · cases hsg : (replace_star_vars tokens).get? i with
      | none =>
        exfalso
        obtain ⟨hlt, -⟩ := List.get?_eq_some.mp hg
        rw [List.get?_eq_none] at hsg
        have hlen := hrel.1
        omega
      | some t' =>
        rcases hrel.2 i t t' hg hsg with heq | ⟨hnl, -, -, -, -⟩
        · rw [heq]
        · exact absurd hlit hnl
  · intro t' hget hne
    rw [hcol, hg] at hget
    simp only [Option.map_some'] at hget
    injection hget with hget
    by_cases hlit : t.ttype = TokenType.STRING_LITERAL
    · rw [if_pos hlit] at hget
      exact absurd hget.symm hne
    · rw [if_neg hlit] at hget
      cases hv : replace_rbql_var t.content with
      | none =>
        rw [hv] at hget
        exact absurd hget.symm hne
      | some v =>
        rw [hv] at hget
        have hget2 : ({ ttype := t.ttype, content := v } : Token) = t' := hget
        refine ⟨hlit, rfl, ?_⟩
        rw [← hget2]
        rfl
  · intro t' hget hne
    rcases hrel.2 i t t' hg hget with heq | ⟨hnl, hstar, hlok, hrok, hrepl⟩
    · exact absurd heq hne
    · exact ⟨hnl, hstar, hlok, hrok, hrepl⟩

/-- Witness for C9 at a concrete list `['lit'] * a1`: the string literal
is untouched by both rewriters. -/
theorem rewriters_preserve_string_literals_witness :
    (replace_column_vars [⟨TokenType.STRING_LITERAL, "'a1'"⟩, ⟨TokenType.WHITESPACE, " "⟩,
        ⟨TokenType.ALPHANUM_RAW, "a1"⟩]).get? 0 =
      some ⟨TokenType.STRING_LITERAL, "'a1'"⟩ ∧
    (replace_star_vars [⟨TokenType.STRING_LITERAL, "'a1'"⟩, ⟨TokenType.WHITESPACE, " "⟩,
        ⟨TokenType.ALPHANUM_RAW, "a1"⟩]).get? 0 =
      some ⟨TokenType.STRING_LITERAL, "'a1'"⟩ :=
  (rewriters_preserve_string_literals
    [⟨TokenType.STRING_LITERAL, "'a1'"⟩, ⟨TokenType.WHITESPACE, " "⟩,
     ⟨TokenType.ALPHANUM_RAW, "a1"⟩] 0 ⟨TokenType.STRING_LITERAL, "'a1'"⟩ rfl).1 rfl

/-! ### C5: `parse_join_expression` (`rbql.py` lines 531-540) -/

/-- The join syntax error message. -/
def join_syntax_err : String :=
  "Incorrect join syntax. Must be: \"<JOIN> /path/to/B/table on a<i> == b<j>\""

/-- `parse_join_expression(tokens)`: join the token contents, strip,
split on single spaces; require five words `<path> ON <lhs> == <rhs>`;
swap the column operands when they appear in reverse order; require an
A-column on the left and a B-column on the right; return the path and
the rewritten field references. -/
def parse_join_expression (tokens : List Token) : Except String (String × String × String) :=
  match py_split_str ' ' (join_tokens tokens) with
  | [w0, w1, w2, w3, w4] =>
    if str_upper w1 ≠ "ON" ∨ w3 ≠ "==" then Except.error join_syntax_err
    else
      let p := if (column_var_num w4).isSome then (w4, w2) else (w2, w4)
      if (column_var_num p.1).isNone ∨ (bcolumn_var_num p.2).isNone then
        Except.error join_syntax_err
      else Except.ok (w0, (replace_rbql_var p.1).getD "", (replace_rbql_var p.2).getD "")
  | _ => Except.error join_syntax_err

/-- Specification-side join parsing, as the claim phrases it: five words,
`ON` case-insensitively, literal `==`, and exactly one of the operands an
A-column while the other is a B-column (in either order). -/
def join_spec_result (ws : List String) : Except String (String × String × String) :=
  match ws with
  | [w0, w1, w2, w3, w4] =>
    if str_upper w1 = "ON" ∧ w3 = "==" then
      match column_var_num w2, bcolumn_var_num w4 with
      | some n, some m =>
        Except.ok (w0, "fields[" ++ toString (n - 1) ++ "]",
          "bfields[" ++ toString (m - 1) ++ "]")
      | _, _ =>
        match column_var_num w4, bcolumn_var_num w2 with
        | some n, some m =>
          Except.ok (w0, "fields[" ++ toString (n - 1) ++ "]",
            "bfields[" ++ toString (m - 1) ++ "]")
        | _, _ => Except.error join_syntax_err
    else Except.error join_syntax_err
  | _ => Except.error join_syntax_err

lemma column_bcolumn_excl (s : String) :
    (column_var_num s).isSome = true → (bcolumn_var_num s).isSome = true → False := by
  intro h1 h2
  unfold column_var_num at h1
  unfold bcolumn_var_num at h2
  cases hd : s.data with
  | nil =>
    rw [hd] at h1
    dsimp only at h1
    simp at h1
  | cons c cs =>
    cases cs with
    | nil =>
      rw [hd] at h1
      dsimp only at h1
      simp at h1
    | cons d ds =>
      rw [hd] at h1
      rw [hd] at h2
      dsimp only at h1 h2
      split_ifs at h1 h2 with ha hb
      · have hab : ('a' : Char) = 'b' := ha.1.symm.trans hb.1
        exact absurd hab (by decide)
      · simp at h2
      · simp at h1
      · simp at h1

lemma replace_var_of_column {s : String} {n : Nat} (h : column_var_num s = some n) :
    replace_rbql_var s = some ("fields[" ++ toString (n - 1) ++ "]") := by
  unfold replace_rbql_var
  rw [h]

lemma replace_var_of_bcolumn {s : String} {n : Nat} (h0 : column_var_num s = none)
    (h : bcolumn_var_num s = some n) :
    replace_rbql_var s = some ("bfields[" ++ toString (n - 1) ++ "]") := by
  unfold replace_rbql_var
  rw [h0, h]

lemma isSome_ne_none {α : Type} {o : Option α} {v : α} (h : o = some v) :
    (o.isSome) = true := by
  rw [h]
  rfl

lemma bcolumn_none_of_column {s : String} {n : Nat} (h : column_var_num s = some n) :
    bcolumn_var_num s = none := by
  cases hB : bcolumn_var_num s with
  | none => rfl
  | some k => exact absurd (column_bcolumn_excl s (isSome_ne_none h) (isSome_ne_none hB)) not_false

lemma column_none_of_bcolumn {s : String} {n : Nat} (h : bcolumn_var_num s = some n) :
    column_var_num s = none := by
  cases hA : column_var_num s with
  | none => rfl
  | some k => exact absurd (column_bcolumn_excl s (isSome_ne_none hA) (isSome_ne_none h)) not_false

lemma parse_join_expression_eq5 (tokens : List Token) (w0 w1 w2 w3 w4 : String)
    (hws : py_split_str ' ' (join_tokens tokens) = [w0, w1, w2, w3, w4]) :
    parse_join_expression tokens =
      (if str_upper w1 ≠ "ON" ∨ w3 ≠ "==" then Except.error join_syntax_err
       else
        let p := if (column_var_num w4).isSome then (w4, w2) else (w2, w4)
        if (column_var_num p.1).isNone ∨ (bcolumn_var_num p.2).isNone then
          Except.error join_syntax_err
        else Except.ok (w0, (replace_rbql_var p.1).getD "", (replace_rbql_var p.2).getD "")) := by
  unfold parse_join_expression
  rw [hws]

lemma join_spec_result_eq5 (w0 w1 w2 w3 w4 : String) :
    join_spec_result [w0, w1, w2, w3, w4] =
      (if str_upper w1 = "ON" ∧ w3 = "==" then
        match column_var_num w2, bcolumn_var_num w4 with
        | some n, some m =>
          Except.ok (w0, "fields[" ++ toString (n - 1) ++ "]",
            "bfields[" ++ toString (m - 1) ++ "]")
        | _, _ =>
          match column_var_num w4, bcolumn_var_num w2 with
          | some n, some m =>
            Except.ok (w0, "fields[" ++ toString (n - 1) ++ "]",
              "bfields[" ++ toString (m - 1) ++ "]")
          | _, _ => Except.error join_syntax_err
      else Except.error join_syntax_err) := rfl

/-- **C5.** `parse_join_expression`, applied to a join clause's token
body, succeeds iff the whitespace-stripped joined body splits by spaces
into exactly five words `<path> ON <lhs> == <rhs>` with `ON`
case-insensitive, `==` literal, and exactly one of `lhs`/`rhs` an
A-column while the other is a B-column (swapped when reversed); any
other shape yields the parsing error `Incorrect join syntax. ...`; on
success it returns the B path with the rewritten A-side and B-side field
references. -/
theorem parse_join_expression_correct (tokens : List Token) :
    parse_join_expression tokens = join_spec_result (py_split_str ' ' (join_tokens tokens)) := by
  rcases hws : py_split_str ' ' (join_tokens tokens) with _ | ⟨w0, _ | ⟨w1, _ | ⟨w2, _ | ⟨w3,
    _ | ⟨w4, _ | ⟨w5, rest⟩⟩⟩⟩⟩⟩ <;>
    try (unfold parse_join_expression; rw [hws]; rfl)
  rw [parse_join_expression_eq5 tokens w0 w1 w2 w3 w4 hws, join_spec_result_eq5]
  by_cases h1 : str_upper w1 = "ON"
  · by_cases h2 : w3 = "=="
    · rw [if_neg (show ¬(str_upper w1 ≠ "ON" ∨ w3 ≠ "==") by simp [h1, h2]),
        if_pos (show str_upper w1 = "ON" ∧ w3 = "==" from ⟨h1, h2⟩)]
      cases hA4 : column_var_num w4 with
      | some n4 =>
        have hB4 := bcolumn_none_of_column hA4
        cases hB2 : bcolumn_var_num w2 with
        | some m2 =>
          have hA2 := column_none_of_bcolumn hB2
          simp [hA4, hB2, hA2, hB4, replace_var_of_column hA4,
            replace_var_of_bcolumn hA2 hB2]
        | none =>
          cases hA2 : column_var_num w2 <;>
            simp [hA4, hB2, hA2, hB4]
      | none =>
        cases hA2 : column_var_num w2 with
        | some n2 =>
          have hB2 := bcolumn_none_of_column hA2
          cases hB4 : bcolumn_var_num w4 with
          | some m4 =>
            simp [hA4, hB4, hA2, hB2, replace_var_of_column hA2,
              replace_var_of_bcolumn hA4 hB4]
          | none =>
            simp [hA4, hB4, hA2, hB2]
        | none =>
          cases hB4 : bcolumn_var_num w4 <;> cases hB2 : bcolumn_var_num w2 <;>
            simp [hA4, hB4, hA2, hB2]
    · rw [if_pos (by simp [h2]), if_neg (by simp [h2])]
  · rw [if_pos (by simp [h1]), if_neg (by simp [h1])]

/-! ### 4.10 Per-record execution: `rbql_list`, joiners, `rb_transform` -/

/-- A Python value reaching field projection: either the `None` sentinel
(produced by `LeftJoiner` for absent keys) or a string field. -/
inductive PyVal
  | vnone
  | vstr (s : String)
deriving DecidableEq

/-- `str6(obj)`: strings pass through; `None` renders as `"None"`
(Python `str(None)`). -/
def str6 : PyVal → String
  | PyVal.vnone => "None"
  | PyVal.vstr s => s

/-- An exception escaping a templated expression: the typed
`BadFieldError` carrying a 0-based index, or any other exception with
its message. -/
inductive EvalErr
  | badField (idx : Nat)
  | exc (msg : String)
deriving DecidableEq

/-- `rbql_list.__getitem__`: an in-range index returns the element, an
out-of-range index raises `BadFieldError(idx)`. -/
def rbql_get (l : List PyVal) (idx : Nat) : Except EvalErr PyVal :=
  match l.get? idx with
  | some v => Except.ok v
  | none => Except.error (EvalErr.badField idx)

/-- Python `line.rstrip('\r\n')`. -/
def rstrip_crlf (s : String) : String :=
  String.mk ((s.data.reverse.dropWhile
    (fun c => c = Char.ofNat 13 || c = Char.ofNat 10)).reverse)

/-- Python `DLM.join(parts)` for a one-character delimiter. -/
def py_join (sep : Char) : List String → String
  | [] => ""
  | [x] => x
  | x :: y :: xs => x ++ String.mk [sep] ++ py_join sep (y :: xs)

/-- Insertion-ordered dict lookup (`d.get(k, None)`). -/
def dict_get {α : Type} (d : List (String × α)) (k : String) : Option α :=
  (d.find? (fun p => p.1 == k)).map (fun p => p.2)

/-- `read_join_table`'s loop (`rbql.py` lines 427-439): per B line,
strip the newline, split into `bfields`, bump `fields_max_len`, evaluate
the templated `{rhs_join_var}` key expression — a `BadFieldError` there
is reported with a B name — and insert, rejecting duplicate keys. -/
def read_join_table_go (dlm : Char) (rhs_join_var : List PyVal → Except Nat String) :
    Nat → List String → List (String × List PyVal) → Nat →
      Except String (List (String × List PyVal) × Nat)
  | _, [], result, fields_max_len => Except.ok (result, fields_max_len)
  | il, line :: rest, result, fields_max_len =>
    let bfields := (py_split_str dlm (rstrip_crlf line)).map PyVal.vstr
    match rhs_join_var bfields with
    | Except.error bad_idx =>
      Except.error ("No \"b" ++ toString (bad_idx + 1) ++ "\" column at line: " ++
        toString il ++ " in \"B\" table")
    | Except.ok key =>
      if (dict_get result key).isSome then
        Except.error "Join column must be unique in right-hand-side \"B\" table"
      else
        read_join_table_go dlm rhs_join_var (il + 1) rest (result ++ [(key, bfields)])
          (Nat.max fields_max_len bfields.length)

/-- `read_join_table` over the B table's record list. -/
def read_join_table (dlm : Char) (rhs_join_var : List PyVal → Except Nat String)
    (blines : List String) : Except String (List (String × List PyVal) × Nat) :=
  read_join_table_go dlm rhs_join_var 1 blines [] 0

/-- `LeftJoiner.get(lhs_key)`: the stored B row, or `[None] *
fields_max_len` when the key is absent. -/
def left_joiner_get (join_data : List (String × List PyVal)) (fields_max_len : Nat)
    (lhs_key : String) : List PyVal :=
  (dict_get join_data lhs_key).getD (List.replicate fields_max_len PyVal.vnone)

/-- `LeftJoiner` as the `joiner.get` closure used by `rb_transform`:
always returns a row, never `None`. -/
def left_joiner (join_data : List (String × List PyVal)) (fields_max_len : Nat) :
    String → Except EvalErr (Option (List PyVal)) :=
  fun lhs_key => Except.ok (some (left_joiner_get join_data fields_max_len lhs_key))

/-- The environment visible to the templated expressions of one
iteration of `rb_transform`'s loop. -/
structure RecordEnv where
  NR : Nat
  NF : Nat
  line : String
  star_line : String
  fields : List PyVal
  bfields : Option (List PyVal)

/-- Outcome of one loop iteration of `rb_transform`. -/
inductive StepRes
  | written (record : String)
  | skipJoin
  | skipWhere
  | runtimeError (msg : String)
deriving DecidableEq

/-- The tail of `rb_transform`'s `try` body after the join step: the
WHERE test (`continue` when false) and the SELECT projection joined with
the delimiter for the writer. -/
def rb_after_join (dlm : Char)
    (where_expr : RecordEnv → Except EvalErr Bool)
    (select_expr : RecordEnv → Except EvalErr (List PyVal))
    (env : RecordEnv) : Except EvalErr StepRes :=
  match where_expr env with
  | Except.error e => Except.error e
  | Except.ok false => Except.ok StepRes.skipWhere
  | Except.ok true =>
    match select_expr env with
    | Except.error e => Except.error e
    | Except.ok outs => Except.ok (StepRes.written (py_join dlm (outs.map str6)))

/-- The `try` body of one iteration of `rb_transform`'s loop (`rbql.py`
lines 481-499, direct-write path): strip the newline, split `fields`, if
a joiner is present evaluate the `{lhs_join_var}` key, look it up
(`continue` on a `None` result) and extend `star_line` with the B
fields, then run the WHERE test and the SELECT projection.  The
templated expressions are parameters, as in the source template. -/
def rb_try_body (dlm : Char)
    (joiner : Option (String → Except EvalErr (Option (List PyVal))))
    (lhs_join_var : RecordEnv → Except EvalErr String)
    (where_expr : RecordEnv → Except EvalErr Bool)
    (select_expr : RecordEnv → Except EvalErr (List PyVal))
    (NR : Nat) (rawline : String) : Except EvalErr StepRes :=
  let line := rstrip_crlf rawline
  let fields := (py_split_str dlm line).map PyVal.vstr
  let env0 : RecordEnv :=
    { NR := NR, NF := fields.length, line := line, star_line := line,
      fields := fields, bfields := none }
  match joiner with
  | none => rb_after_join dlm where_expr select_expr env0
  | some get =>
    match lhs_join_var env0 with
    | Except.error e => Except.error e
    | Except.ok key =>
      match get key with
      | Except.error e => Except.error e
      | Except.ok none => Except.ok StepRes.skipJoin
      | Except.ok (some bf) =>
        rb_after_join dlm where_expr select_expr
          { env0 with
            bfields := some bf
            star_line := py_join dlm (env0.line :: bf.map str6) }

/-- One iteration of `rb_transform`'s loop with its two `except`
clauses: a `BadFieldError` is reported as `No "a<k+1>" column at line:
<NR>` (always an A name, whatever list raised it); any other exception
as `Error at line: <NR>, Details: <msg>`. -/
def rb_record_step (dlm : Char)
    (joiner : Option (String → Except EvalErr (Option (List PyVal))))
    (lhs_join_var : RecordEnv → Except EvalErr String)
    (where_expr : RecordEnv → Except EvalErr Bool)
    (select_expr : RecordEnv → Except EvalErr (List PyVal))
    (NR : Nat) (rawline : String) : StepRes :=
  match rb_try_body dlm joiner lhs_join_var where_expr select_expr NR rawline with
  | Except.ok r => r
  | Except.error (EvalErr.badField k) =>
    StepRes.runtimeError ("No \"a" ++ toString (k + 1) ++ "\" column at line: " ++
      toString NR)
  | Except.error (EvalErr.exc m) =>
    StepRes.runtimeError ("Error at line: " ++ toString NR ++ ", Details: " ++ m)

/-- `rb_transform`'s loop over the A records (direct-write path),
instrumented with the number of iterations that reached the WHERE test:
a runtime error aborts the run, a join skip moves on without counting,
otherwise the WHERE counter advances and `written` records accumulate. -/
def rb_transform_go (dlm : Char)
    (joiner : Option (String → Except EvalErr (Option (List PyVal))))
    (lhs_join_var : RecordEnv → Except EvalErr String)
    (where_expr : RecordEnv → Except EvalErr Bool)
    (select_expr : RecordEnv → Except EvalErr (List PyVal)) :
    Nat → List String → List String → Nat → Except String (List String × Nat)
  | _, [], writes, where_evals => Except.ok (writes.reverse, where_evals)
  | NR, r :: rs, writes, where_evals =>
    match rb_record_step dlm joiner lhs_join_var where_expr select_expr NR r with
    | StepRes.runtimeError m => Except.error m
    | StepRes.skipJoin =>
      rb_transform_go dlm joiner lhs_join_var where_expr select_expr
        (NR + 1) rs writes where_evals
    | StepRes.skipWhere =>
      rb_transform_go dlm joiner lhs_join_var where_expr select_expr
        (NR + 1) rs writes (where_evals + 1)
    | StepRes.written out =>
      rb_transform_go dlm joiner lhs_join_var where_expr select_expr
        (NR + 1) rs (out :: writes) (where_evals + 1)

/-! ### 4.11 C10: bad-field reporting -/

lemma rbql_get_error_iff (l : List PyVal) (i : Nat) :
    rbql_get l i = Except.error (EvalErr.badField i) ↔ l.length ≤ i := by
  unfold rbql_get
  cases hg : l.get? i with
  | some v =>
    constructor
    · intro h
      cases h
    · intro h
      rw [List.get?_eq_none.mpr h] at hg
      cases hg
  | none =>
    constructor
    · intro _
      exact List.get?_eq_none.mp hg
    · intro _
      rfl

lemma read_join_table_go_badfield (dlm : Char)
    (rhs_join_var : List PyVal → Except Nat String) (il : Nat)
    (line : String) (rest : List String)
    (res : List (String × List PyVal)) (fml : Nat) (k : Nat)
    (h : rhs_join_var ((py_split_str dlm (rstrip_crlf line)).map PyVal.vstr) =
      Except.error k) :
    read_join_table_go dlm rhs_join_var il (line :: rest) res fml =
      Except.error ("No \"b" ++ toString (k + 1) ++ "\" column at line: " ++
        toString il ++ " in \"B\" table") := by
  unfold read_join_table_go
  dsimp only
  rw [h]

/-- A Python list as the join machinery passes it to the templated
expressions: the flag records whether it is an `rbql_list` (a B row
stored by `read_join_table`) or a plain `list` (the `[None] *
fields_max_len` default built by `LeftJoiner.get`). -/
def PyListVal : Type := Bool × List PyVal

/-- Indexing as Python dispatches it on the receiver's class:
`rbql_list.__getitem__` turns an out-of-range access into the typed
`BadFieldError(idx)`, while a plain `list` raises `IndexError`, whose
`str` is `list index out of range`. -/
def py_index (l : PyListVal) (idx : Nat) : Except EvalErr PyVal :=
  match l with
  | (true, data) => rbql_get data idx
  | (false, data) =>
    match data.get? idx with
    | some v => Except.ok v
    | none => Except.error (EvalErr.exc "list index out of range")

/-- `LeftJoiner.get(lhs_key)` with the receiving class kept: a stored B
row is an `rbql_list`; the `[None] * fields_max_len` default is a plain
`list`. -/
def left_joiner_typed (join_data : List (String × List PyVal)) (fields_max_len : Nat) :
    String → Except EvalErr (Option PyListVal) :=
  fun lhs_key =>
    Except.ok (some (match dict_get join_data lhs_key with
      | some row => ((true, row) : PyListVal)
      | none => ((false, List.replicate fields_max_len PyVal.vnone) : PyListVal)))

/-- The expression environment with the class of `bfields` kept. -/
structure RecordEnvT where
  NR : Nat
  NF : Nat
  line : String
  star_line : String
  fields : List PyVal
  bfields : Option PyListVal

/-- `rb_after_join` over the typed environment. -/
def rb_after_joinT (dlm : Char)
    (where_expr : RecordEnvT → Except EvalErr Bool)
    (select_expr : RecordEnvT → Except EvalErr (List PyVal))
    (env : RecordEnvT) : Except EvalErr StepRes :=
  match where_expr env with
  | Except.error e => Except.error e
  | Except.ok false => Except.ok StepRes.skipWhere
  | Except.ok true =>
    match select_expr env with
    | Except.error e => Except.error e
    | Except.ok outs => Except.ok (StepRes.written (py_join dlm (outs.map str6)))

/-- The `try` body of one `rb_transform` iteration over the typed
environment (same control flow as `rb_try_body`; the joiner result now
carries the class of the returned list). -/
def rb_try_bodyT (dlm : Char)
    (joiner : Option (String → Except EvalErr (Option PyListVal)))
    (lhs_join_var : RecordEnvT → Except EvalErr String)
    (where_expr : RecordEnvT → Except EvalErr Bool)
    (select_expr : RecordEnvT → Except EvalErr (List PyVal))
    (NR : Nat) (rawline : String) : Except EvalErr StepRes :=
  let line := rstrip_crlf rawline
  let fields := (py_split_str dlm line).map PyVal.vstr
  let env0 : RecordEnvT :=
    { NR := NR, NF := fields.length, line := line, star_line := line,
      fields := fields, bfields := none }
  match joiner with
  | none => rb_after_joinT dlm where_expr select_expr env0
  | some get =>
    match lhs_join_var env0 with
    | Except.error e => Except.error e
    | Except.ok key =>
      match get key with
      | Except.error e => Except.error e
      | Except.ok none => Except.ok StepRes.skipJoin
      | Except.ok (some bf) =>
        rb_after_joinT dlm where_expr select_expr
          { env0 with
            bfields := some bf
            star_line := py_join dlm (env0.line :: bf.2.map str6) }

/-- One `rb_transform` iteration over the typed environment, with the
loop's two `except` clauses: `BadFieldError k` becomes the A-column
message; any other exception is wrapped as
`Error at line: <NR>, Details: <msg>`. -/
def rb_record_stepT (dlm : Char)
    (joiner : Option (String → Except EvalErr (Option PyListVal)))
    (lhs_join_var : RecordEnvT → Except EvalErr String)
    (where_expr : RecordEnvT → Except EvalErr Bool)
    (select_expr : RecordEnvT → Except EvalErr (List PyVal))
    (NR : Nat) (rawline : String) : StepRes :=
  match rb_try_bodyT dlm joiner lhs_join_var where_expr select_expr NR rawline with
  | Except.ok r => r
  | Except.error (EvalErr.badField k) =>
    StepRes.runtimeError ("No \"a" ++ toString (k + 1) ++ "\" column at line: " ++
      toString NR)
  | Except.error (EvalErr.exc m) =>
    StepRes.runtimeError ("Error at line: " ++ toString NR ++ ", Details: " ++ m)

lemma rb_record_stepT_badfield (dlm : Char)
    (joiner : Option (String → Except EvalErr (Option PyListVal)))
    (lhs_join_var : RecordEnvT → Except EvalErr String)
    (where_expr : RecordEnvT → Except EvalErr Bool)
    (select_expr : RecordEnvT → Except EvalErr (List PyVal))
    (NR : Nat) (rawline : String) (k : Nat)
    (h : rb_try_bodyT dlm joiner lhs_join_var where_expr select_expr NR rawline =
      Except.error (EvalErr.badField k)) :
    rb_record_stepT dlm joiner lhs_join_var where_expr select_expr NR rawline =
      StepRes.runtimeError ("No \"a" ++ toString (k + 1) ++ "\" column at line: " ++
        toString NR) := by
  unfold rb_record_stepT
  rw [h]

lemma rb_record_stepT_exc (dlm : Char)
    (joiner : Option (String → Except EvalErr (Option PyListVal)))
    (lhs_join_var : RecordEnvT → Except EvalErr String)
    (where_expr : RecordEnvT → Except EvalErr Bool)
    (select_expr : RecordEnvT → Except EvalErr (List PyVal))
    (NR : Nat) (rawline : String) (m : String)
    (h : rb_try_bodyT dlm joiner lhs_join_var where_expr select_expr NR rawline =
      Except.error (EvalErr.exc m)) :
    rb_record_stepT dlm joiner lhs_join_var where_expr select_expr NR rawline =
      StepRes.runtimeError ("Error at line: " ++ toString NR ++ ", Details: " ++ m) := by
  unfold rb_record_stepT
  rw [h]

lemma py_index_rbql (l : List PyVal) (i : Nat) :
    py_index ((true, l) : PyListVal) i = rbql_get l i := rfl

lemma py_index_plain_oob (l : List PyVal) (i : Nat) (h : l.length ≤ i) :
    py_index ((false, l) : PyListVal) i =
      Except.error (EvalErr.exc "list index out of range") := by
  unfold py_index
  dsimp only
  rw [List.get?_eq_none.mpr h]

lemma left_joiner_typed_miss (jd : List (String × List PyVal)) (fml : Nat) (key : String)
    (h : dict_get jd key = none) :
    left_joiner_typed jd fml key =
      Except.ok (some ((false, List.replicate fml PyVal.vnone) : PyListVal)) := by
  unfold left_joiner_typed
  rw [h]

lemma left_joiner_typed_hit (jd : List (String × List PyVal)) (fml : Nat) (key : String)
    (row : List PyVal) (h : dict_get jd key = some row) :
    left_joiner_typed jd fml key = Except.ok (some ((true, row) : PyListVal)) := by
  unfold left_joiner_typed
  rw [h]

/-- The B index of the C10 example: one row of two fields. -/
def c10_jd : List (String × List PyVal) := [("k1", [PyVal.vstr "k1", PyVal.vstr "x"])]

/-- A-side key expression of the C10 example: a key absent from B. -/
def c10_lhs : RecordEnvT → Except EvalErr String := fun _ => Except.ok "zz"

/-- A-side key expression hitting the stored B row. -/
def c10_lhs_hit : RecordEnvT → Except EvalErr String := fun _ => Except.ok "k1"

/-- WHERE expression of the C10 example: evaluates `b5`, i.e. indexes
`bfields[4]` the way Python dispatches it on the receiving list. -/
def c10_where : RecordEnvT → Except EvalErr Bool := fun env =>
  match env.bfields with
  | some bl =>
    match py_index bl 4 with
    | Except.ok _ => Except.ok true
    | Except.error e => Except.error e
  | none => Except.ok true

/-- SELECT expression of the C10 example. -/
def c10_sel : RecordEnvT → Except EvalErr (List PyVal) := fun _ => Except.ok []

/-- **C10 (counterexample).**  On a LEFT JOIN miss `LeftJoiner.get`
returns the plain `[None] * fields_max_len` list, so the out-of-range
`bfields[4]` access (a `b5` reference against a two-column B table)
raises `IndexError`, and the record is reported as
`Error at line: 1, Details: list index out of range` — not with the
typed bad-field condition and not as an A-column, contrary to the
claim. -/
theorem rb_bad_index_counterexample :
    rb_record_stepT ',' (some (left_joiner_typed c10_jd 2)) c10_lhs c10_where c10_sel
      1 "r1" =
      StepRes.runtimeError "Error at line: 1, Details: list index out of range" ∧
    rb_record_stepT ',' (some (left_joiner_typed c10_jd 2)) c10_lhs c10_where c10_sel
      1 "r1" ≠
      StepRes.runtimeError "No \"a5\" column at line: 1" :=
  ⟨rfl, by decide⟩

/-- **C10 (amended).**  Bad-index reporting, per receiving class: (1) an
`rbql_list` access — `fields`, and `bfields` when it is a stored B row —
fails with the typed `BadFieldError` carrying the 0-based index exactly
when the index is out of range, and an escaped `BadFieldError k` is
always reported as the A-column message `No "a<k+1>" column at line:
<NR>`; (2) on a LEFT JOIN miss the joiner returns the plain
`[None] * fields_max_len` list, whose out-of-range access raises
`IndexError`, reported as `Error at line: <NR>, Details: list index out
of range`; (3) only `read_join_table`'s B-table loop reports a bad
field with a B name. -/
theorem rb_bad_index_reporting :
    (∀ (l : List PyVal) (i : Nat),
      rbql_get l i = Except.error (EvalErr.badField i) ↔ l.length ≤ i) ∧
    (∀ (l : List PyVal) (i : Nat), py_index ((true, l) : PyListVal) i = rbql_get l i) ∧
    (∀ (l : List PyVal) (i : Nat), l.length ≤ i →
      py_index ((false, l) : PyListVal) i =
        Except.error (EvalErr.exc "list index out of range")) ∧
    (∀ (jd : List (String × List PyVal)) (fml : Nat) (key : String),
      dict_get jd key = none →
      left_joiner_typed jd fml key =
        Except.ok (some ((false, List.replicate fml PyVal.vnone) : PyListVal))) ∧
    (∀ (jd : List (String × List PyVal)) (fml : Nat) (key : String) (row : List PyVal),
      dict_get jd key = some row →
      left_joiner_typed jd fml key = Except.ok (some ((true, row) : PyListVal))) ∧
    (∀ (dlm : Char) (joiner : Option (String → Except EvalErr (Option PyListVal)))
      (lhs_join_var : RecordEnvT → Except EvalErr String)
      (where_expr : RecordEnvT → Except EvalErr Bool)
      (select_expr : RecordEnvT → Except EvalErr (List PyVal))
      (NR : Nat) (rawline : String) (k : Nat),
      rb_try_bodyT dlm joiner lhs_join_var where_expr select_expr NR rawline =
        Except.error (EvalErr.badField k) →
      rb_record_stepT dlm joiner lhs_join_var where_expr select_expr NR rawline =
        StepRes.runtimeError ("No \"a" ++ toString (k + 1) ++ "\" column at line: " ++
          toString NR)) ∧
    (∀ (dlm : Char) (joiner : Option (String → Except EvalErr (Option PyListVal)))
      (lhs_join_var : RecordEnvT → Except EvalErr String)
      (where_expr : RecordEnvT → Except EvalErr Bool)
      (select_expr : RecordEnvT → Except EvalErr (List PyVal))
      (NR : Nat) (rawline : String) (m : String),
      rb_try_bodyT dlm joiner lhs_join_var where_expr select_expr NR rawline =
        Except.error (EvalErr.exc m) →
      rb_record_stepT dlm joiner lhs_join_var where_expr select_expr NR rawline =
        StepRes.runtimeError ("Error at line: " ++ toString NR ++ ", Details: " ++ m)) ∧
    (∀ (dlm : Char) (rhs_join_var : List PyVal → Except Nat String) (il : Nat)
      (line : String) (rest : List String)
      (res : List (String × List PyVal)) (fml : Nat) (k : Nat),
      rhs_join_var ((py_split_str dlm (rstrip_crlf line)).map PyVal.vstr) =
        Except.error k →
      read_join_table_go dlm rhs_join_var il (line :: rest) res fml =
        Except.error ("No \"b" ++ toString (k + 1) ++ "\" column at line: " ++
          toString il ++ " in \"B\" table")) :=
  ⟨rbql_get_error_iff, py_index_rbql, py_index_plain_oob, left_joiner_typed_miss,
   left_joiner_typed_hit, rb_record_stepT_badfield, rb_record_stepT_exc,
   read_join_table_go_badfield⟩

/-- **C10 (witness).**  Concrete instances of every part: an empty-list
`rbql_list` access at 2 raises `BadFieldError 2`; `bfields[4]` on the
plain two-`None` default raises the `IndexError` message; the typed
left joiner returns the plain default on the miss and the stored
`rbql_list` row on the hit; on the hit the same `b5` access escapes as
`BadFieldError 4` and is reported as `No "a5" column at line: 1`; a bad
B key expression is reported with the B-table message. -/
theorem rb_bad_index_reporting_witness :
    rbql_get [] 2 = Except.error (EvalErr.badField 2) ∧
    py_index ((false, [PyVal.vnone, PyVal.vnone]) : PyListVal) 4 =
      Except.error (EvalErr.exc "list index out of range") ∧
    left_joiner_typed c10_jd 2 "zz" =
      Except.ok (some ((false, List.replicate 2 PyVal.vnone) : PyListVal)) ∧
    left_joiner_typed c10_jd 2 "k1" =
      Except.ok (some ((true, [PyVal.vstr "k1", PyVal.vstr "x"]) : PyListVal)) ∧
    rb_record_stepT ',' (some (left_joiner_typed c10_jd 2)) c10_lhs_hit c10_where c10_sel
      1 "r1" =
      StepRes.runtimeError ("No \"a" ++ toString (4 + 1) ++ "\" column at line: " ++
        toString 1) ∧
    read_join_table_go ',' (fun _ => Except.error 0) 1 ["b1"] [] 0 =
      Except.error ("No \"b" ++ toString (0 + 1) ++ "\" column at line: " ++
        toString 1 ++ " in \"B\" table") :=
  ⟨(rb_bad_index_reporting.1 [] 2).mpr (by decide),
   rb_bad_index_reporting.2.2.1 [PyVal.vnone, PyVal.vnone] 4 (by decide),
   rb_bad_index_reporting.2.2.2.1 c10_jd 2 "zz" (by decide),
   rb_bad_index_reporting.2.2.2.2.1 c10_jd 2 "k1" [PyVal.vstr "k1", PyVal.vstr "x"]
     (by decide),
   rb_bad_index_reporting.2.2.2.2.2.1 ',' (some (left_joiner_typed c10_jd 2))
     c10_lhs_hit c10_where c10_sel 1 "r1" 4 rfl,
   rb_bad_index_reporting.2.2.2.2.2.2.2 ',' (fun _ => Except.error 0) 1 "b1" [] [] 0 0
     rfl⟩

/-! ### 4.12 C4: LEFT JOIN never skips -/

lemma left_joiner_get_absent {jd : List (String × List PyVal)} {fml : Nat} {key : String}
    (h : dict_get jd key = none) :
    left_joiner_get jd fml key = List.replicate fml PyVal.vnone := by
  unfold left_joiner_get
  rw [h]
  rfl

lemma read_join_table_go_fml (dlm : Char) (rhs_join_var : List PyVal → Except Nat String) :
    ∀ (blines : List String) (il : Nat) (res : List (String × List PyVal)) (f0 : Nat)
      (jd : List (String × List PyVal)) (fml : Nat),
      read_join_table_go dlm rhs_join_var il blines res f0 = Except.ok (jd, fml) →
      fml = (blines.map
        (fun l => (py_split_str dlm (rstrip_crlf l)).length)).foldl Nat.max f0 := by
  intro blines
  induction blines with
  | nil =>
    intro il res f0 jd fml h
    unfold read_join_table_go at h
    simp only [Except.ok.injEq, Prod.mk.injEq] at h
    rw [List.map_nil, List.foldl_nil]
    exact h.2.symm
  | cons line rest ih =>
    intro il res f0 jd fml h
    unfold read_join_table_go at h
    dsimp only at h
    cases hr : rhs_join_var ((py_split_str dlm (rstrip_crlf line)).map PyVal.vstr) with
    | error k =>
      rw [hr] at h
      cases h
    | ok key =>
      rw [hr] at h
      dsimp only at h
      by_cases hdup : (dict_get res key).isSome = true
      · rw [if_pos hdup] at h
        cases h
      · rw [if_neg hdup] at h
        have := ih (il + 1) (res ++ [(key, (py_split_str dlm (rstrip_crlf line)).map PyVal.vstr)])
          (Nat.max f0 ((py_split_str dlm (rstrip_crlf line)).map PyVal.vstr).length) jd fml h
        rw [this, List.map_cons, List.foldl_cons, List.length_map]

lemma rb_after_join_ne_skip (dlm : Char)
    (where_expr : RecordEnv → Except EvalErr Bool)
    (select_expr : RecordEnv → Except EvalErr (List PyVal)) (env : RecordEnv) :
    rb_after_join dlm where_expr select_expr env ≠ Except.ok StepRes.skipJoin := by
  unfold rb_after_join
  cases hw : where_expr env with
  | error e =>
    intro h
    cases h
  | ok b =>
    cases b with
    | false =>
      intro h
      cases h
    | true =>
      cases hs : select_expr env with
      | error e =>
        intro h
        cases h
      | ok outs =>
        intro h
        cases h

lemma rb_record_step_left_ne_skip (dlm : Char)
    (jd : List (String × List PyVal)) (fml : Nat)
    (lhs_join_var : RecordEnv → Except EvalErr String)
    (where_expr : RecordEnv → Except EvalErr Bool)
    (select_expr : RecordEnv → Except EvalErr (List PyVal))
    (NR : Nat) (rawline : String) :
    rb_record_step dlm (some (left_joiner jd fml)) lhs_join_var where_expr select_expr
      NR rawline ≠ StepRes.skipJoin := by
  unfold rb_record_step
  cases htb : rb_try_body dlm (some (left_joiner jd fml)) lhs_join_var where_expr
      select_expr NR rawline with
  | error e =>
    cases e with
    | badField k =>
      intro h
      cases h
    | exc m =>
      intro h
      cases h
  | ok r =>
    intro h
    dsimp only at h
    subst h
    unfold rb_try_body at htb
    dsimp only at htb
    cases hl : lhs_join_var
        { NR := NR, NF := ((py_split_str dlm (rstrip_crlf rawline)).map PyVal.vstr).length,
          line := rstrip_crlf rawline, star_line := rstrip_crlf rawline,
          fields := (py_split_str dlm (rstrip_crlf rawline)).map PyVal.vstr,
          bfields := none } with
    | error e =>
      rw [hl] at htb
      cases htb
    | ok key =>
      rw [hl] at htb
      dsimp only [left_joiner] at htb
      exact rb_after_join_ne_skip dlm where_expr select_expr _ htb

lemma rb_transform_go_count (dlm : Char)
    (jd : List (String × List PyVal)) (fml : Nat)
    (lhs_join_var : RecordEnv → Except EvalErr String)
    (where_expr : RecordEnv → Except EvalErr Bool)
    (select_expr : RecordEnv → Except EvalErr (List PyVal)) :
    ∀ (records : List String) (NR : Nat) (writes : List String) (w0 : Nat)
      (ws : List String) (we : Nat),
      rb_transform_go dlm (some (left_joiner jd fml)) lhs_join_var where_expr select_expr
        NR records writes w0 = Except.ok (ws, we) →
      we = w0 + records.length := by
  intro records
  induction records with
  | nil =>
    intro NR writes w0 ws we h
    unfold rb_transform_go at h
    simp only [Except.ok.injEq, Prod.mk.injEq] at h
    rw [List.length_nil, ← h.2]
    omega
  | cons r rs ih =>
    intro NR writes w0 ws we h
    unfold rb_transform_go at h
    cases hst : rb_record_step dlm (some (left_joiner jd fml)) lhs_join_var where_expr
        select_expr NR r with
    | written out =>
      rw [hst] at h
      have := ih (NR + 1) (out :: writes) (w0 + 1) ws we h
      rw [this, List.length_cons]
      omega
    | skipJoin =>
      exact absurd hst (rb_record_step_left_ne_skip dlm jd fml lhs_join_var where_expr
        select_expr NR r)
    | skipWhere =>
      rw [hst] at h
      have := ih (NR + 1) writes (w0 + 1) ws we h
      rw [this, List.length_cons]
      omega
    | runtimeError m =>
      rw [hst] at h
      cases h

/-- **C4.**  For LEFT JOIN: when a key is absent from the B index the
joiner lookup returns `[None] * fields_max_len`, each `None` projecting
as the string `"None"`; `fields_max_len` is the maximum field count over
all B rows; the per-record step with a left joiner never skips a record
at the join, so a successful run evaluates the WHERE predicate exactly
once per A record. -/
theorem left_join_no_skip (dlm : Char) (rhs_join_var : List PyVal → Except Nat String)
    (blines : List String) (jd : List (String × List PyVal)) (fml : Nat)
    (hread : read_join_table dlm rhs_join_var blines = Except.ok (jd, fml))
    (key : String) (hkey : dict_get jd key = none)
    (lhs_join_var : RecordEnv → Except EvalErr String)
    (where_expr : RecordEnv → Except EvalErr Bool)
    (select_expr : RecordEnv → Except EvalErr (List PyVal))
    (records : List String) (ws : List String) (we : Nat)
    (hrun : rb_transform_go dlm (some (left_joiner jd fml)) lhs_join_var where_expr
      select_expr 1 records [] 0 = Except.ok (ws, we)) :
    left_joiner_get jd fml key = List.replicate fml PyVal.vnone ∧
    (∀ v ∈ left_joiner_get jd fml key, str6 v = "None") ∧
    fml = (blines.map (fun l => (py_split_str dlm (rstrip_crlf l)).length)).foldl Nat.max 0 ∧
    (∀ (NR : Nat) (rawline : String),
      rb_record_step dlm (some (left_joiner jd fml)) lhs_join_var where_expr select_expr
        NR rawline ≠ StepRes.skipJoin) ∧
    we = records.length := by
  refine ⟨left_joiner_get_absent hkey, ?_, ?_, ?_, ?_⟩
  · intro v hv
    rw [left_joiner_get_absent hkey] at hv
    rw [List.eq_of_mem_replicate hv]
    rfl
  · exact read_join_table_go_fml dlm rhs_join_var blines 1 [] 0 jd fml hread
  · intro NR rawline
    exact rb_record_step_left_ne_skip dlm jd fml lhs_join_var where_expr select_expr
      NR rawline
  · have := rb_transform_go_count dlm jd fml lhs_join_var where_expr select_expr
      records 1 [] 0 ws we hrun
    omega

/-- B-side key expression of the C4 witness query: `b1`. -/
def c4_rhs : List PyVal → Except Nat String := fun bf =>
  match bf.get? 0 with
  | some v => Except.ok (str6 v)
  | none => Except.error 0

/-- The B index the C4 witness run builds from the one-line B table. -/
def c4_jd : List (String × List PyVal) := [("k1", [PyVal.vstr "k1", PyVal.vstr "x"])]

/-- A-side key expression of the C4 witness query: a key absent from B. -/
def c4_lhs : RecordEnv → Except EvalErr String := fun _ => Except.ok "zz"

/-- WHERE expression of the C4 witness query. -/
def c4_where : RecordEnv → Except EvalErr Bool := fun _ => Except.ok true

/-- SELECT expression of the C4 witness query. -/
def c4_sel : RecordEnv → Except EvalErr (List PyVal) := fun env => Except.ok env.fields

/-- **C4 (witness).**  A concrete LEFT JOIN run: a one-line B table with
two fields, an A key absent from the B index, one A record; the lookup
fills two `None`s, the run succeeds, and the WHERE predicate is
evaluated once — as many times as there are A records. -/
theorem left_join_no_skip_witness :
    (read_join_table ',' c4_rhs ["k1,x"] = Except.ok (c4_jd, 2) ∧
     dict_get c4_jd "zz" = none ∧
     rb_transform_go ',' (some (left_joiner c4_jd 2)) c4_lhs c4_where c4_sel 1 ["r1"] [] 0 =
       Except.ok (["r1"], 1)) ∧
    (left_joiner_get c4_jd 2 "zz" = List.replicate 2 PyVal.vnone ∧
     (∀ v ∈ left_joiner_get c4_jd 2 "zz", str6 v = "None") ∧
     2 = ((["k1,x"] : List String).map
       (fun l => (py_split_str ',' (rstrip_crlf l)).length)).foldl Nat.max 0 ∧
     (∀ (NR : Nat) (rawline : String),
       rb_record_step ',' (some (left_joiner c4_jd 2)) c4_lhs c4_where c4_sel NR rawline ≠
         StepRes.skipJoin) ∧
     1 = (["r1"] : List String).length) :=
  ⟨⟨rfl, by decide, rfl⟩,
   left_join_no_skip ',' c4_rhs ["k1,x"] c4_jd 2 rfl "zz" (by decide)
     c4_lhs c4_where c4_sel ["r1"] ["r1"] 1 rfl⟩

/-! ### 4.8 ORDER BY buffering and emission (C1) -/

/-- Drop the last `n` characters of a string (Python `s[:-n]`). -/
def py_drop_right (s : String) (n : Nat) : String :=
  String.mk (s.data.take (s.data.length - n))

/-- Python `s.rstrip()` at the `String` level. -/
def py_rstrip (s : String) : String :=
  String.mk (rstripChars s.data)

/-- The `ORDER BY` direction handling of `parse_to_py` (`rbql.py` lines
614-621): if the joined clause body case-insensitively ends with
`" DESC"` the suffix is stripped and the reverse flag set; a remaining
`" ASC"` suffix is then stripped without touching the flag. -/
def parse_order_by (order_expression : String) : String × Bool :=
  let p1 :=
    if str_ends_with (str_upper order_expression) " DESC" then
      (py_rstrip (py_drop_right order_expression 5), true)
    else (order_expression, false)
  let p2 :=
    if str_ends_with (str_upper p1.1) " ASC" then
      (py_rstrip (py_drop_right p1.1 4), p1.2)
    else p1
  p2

/-- Lexicographic `<=` on character lists by code point: Python string
comparison. -/
def chars_le : List Char → List Char → Bool
  | [], _ => true
  | _ :: _, [] => false
  | a :: as, b :: bs =>
    if a.toNat < b.toNat then true
    else if b.toNat < a.toNat then false
    else chars_le as bs

/-- Python `<=` on strings. -/
def str_le (a b : String) : Bool :=
  chars_le a.data b.data

/-- Python `<=` on a `(sort_key, record)` tuple: lexicographic by the
key and then by the record string, exactly how `sorted` compares the
2-tuples appended to `unsorted_entries`. -/
def pair_le (a b : Int × String) : Bool :=
  decide (a.1 < b.1) || (decide (a.1 = b.1) && str_le a.2 b.2)

/-- Python `sorted(entries, reverse=reverse_flag)` on the buffered
tuples: a stable sort under full tuple comparison; `reverse=True` sorts
as if each comparison were reversed. -/
def py_sorted (reverse_flag : Bool) (entries : List (Int × String)) : List (Int × String) :=
  if reverse_flag then entries.mergeSort (fun a b => pair_le b a)
  else entries.mergeSort pair_le

/-- The tail of `rb_transform` (`rbql.py` lines 506-509): if any entries
were buffered, sort them with the reverse flag and write each `e[1]`. -/
def rb_emit_sorted (reverse_flag : Bool) (unsorted_entries : List (Int × String)) : List String :=
  if unsorted_entries.length ≠ 0 then
    (py_sorted reverse_flag unsorted_entries).map (fun p => p.2)
  else []

/-- Specification-side emission, as the claim phrases it: a stable sort
by the sort key ALONE (so equal-key entries stay in insertion order),
with `DESC` the exact reverse of the ascending output. -/
def claim_emit (reverse_flag : Bool) (unsorted_entries : List (Int × String)) : List String :=
  let asc := (unsorted_entries.mergeSort (fun a b => decide (a.1 ≤ b.1))).map (fun p => p.2)
  if reverse_flag then asc.reverse else asc

lemma chars_le_total (a b : List Char) : (chars_le a b || chars_le b a) = true := by
  induction a generalizing b with
  | nil => simp [chars_le]
  | cons x xs ih =>
    cases b with
    | nil => simp [chars_le]
    | cons y ys =>
      by_cases h1 : x.toNat < y.toNat
      · simp [chars_le, h1]
      · by_cases h2 : y.toNat < x.toNat
        · simp [chars_le, h1, h2]
        · simp only [chars_le, if_neg h1, if_neg h2]
          exact ih ys

lemma chars_le_trans (a b c : List Char) (h1 : chars_le a b = true)
    (h2 : chars_le b c = true) : chars_le a c = true := by
  induction a generalizing b c with
  | nil => simp [chars_le]
  | cons x xs ih =>
    cases b with
    | nil => simp [chars_le] at h1
    | cons y ys =>
      cases c with
      | nil => simp [chars_le] at h2
      | cons z zs =>
        simp only [chars_le] at h1 h2 ⊢
        split_ifs at h1 h2 ⊢ with g1 g2 g3 g4 g5 g6 <;> try rfl
        all_goals (first | omega | skip)
        all_goals (exact ih ys zs h1 h2)

lemma chars_le_antisymm (a b : List Char) (h1 : chars_le a b = true)
    (h2 : chars_le b a = true) : a = b := by
  induction a generalizing b with
  | nil =>
    cases b with
    | nil => rfl
    | cons y ys => simp [chars_le] at h2
  | cons x xs ih =>
    cases b with
    | nil => simp [chars_le] at h1
    | cons y ys =>
      simp only [chars_le] at h1 h2
      split_ifs at h1 h2 with g1 g2 g3 g4 <;> try omega
      have hxy : x = y := char_toNat_inj (by omega)
      rw [hxy, ih ys h1 h2]

lemma pair_le_total (a b : Int × String) : (pair_le a b || pair_le b a) = true := by
  simp only [pair_le, Bool.or_eq_true, Bool.and_eq_true, decide_eq_true_eq]
  rcases lt_trichotomy a.1 b.1 with h | h | h
  · exact Or.inl (Or.inl h)
  · have := chars_le_total a.2.data b.2.data
    simp only [Bool.or_eq_true] at this
    rcases this with hc | hc
    · exact Or.inl (Or.inr ⟨h, hc⟩)
    · exact Or.inr (Or.inr ⟨h.symm, hc⟩)
  · exact Or.inr (Or.inl h)

lemma pair_le_trans (a b c : Int × String) (h1 : pair_le a b = true)
    (h2 : pair_le b c = true) : pair_le a c = true := by
  simp only [pair_le, Bool.or_eq_true, Bool.and_eq_true, decide_eq_true_eq] at h1 h2 ⊢
  rcases h1 with h1 | ⟨h1e, h1s⟩ <;> rcases h2 with h2 | ⟨h2e, h2s⟩
  · exact Or.inl (h1.trans h2)
  · exact Or.inl (h2e ▸ h1)
  · exact Or.inl (h1e ▸ h2)
  · exact Or.inr ⟨h1e.trans h2e, chars_le_trans _ _ _ h1s h2s⟩

lemma pair_le_antisymm (a b : Int × String) (h1 : pair_le a b = true)
    (h2 : pair_le b a = true) : a = b := by
  simp only [pair_le, Bool.or_eq_true, Bool.and_eq_true, decide_eq_true_eq] at h1 h2
  rcases h1 with h1 | ⟨h1e, h1s⟩ <;> rcases h2 with h2 | ⟨h2e, h2s⟩ <;> try omega
  have hd : a.2.data = b.2.data := chars_le_antisymm _ _ h1s h2s
  have hs : a.2 = b.2 := by
    cases ha2 : a.2 with
    | mk l => cases hb2 : b.2 with
      | mk m =>
        rw [ha2, hb2] at hd
        simp only [String.mk] at hd ⊢
        rw [show l = m from hd]
  exact Prod.ext h1e hs

lemma py_sorted_false (entries : List (Int × String)) :
    py_sorted false entries = entries.mergeSort pair_le := rfl

lemma py_sorted_true (entries : List (Int × String)) :
    py_sorted true entries = entries.mergeSort (fun a b => pair_le b a) := rfl

lemma py_sorted_true_eq_reverse (entries : List (Int × String)) :
    py_sorted true entries = (py_sorted false entries).reverse := by
  rw [py_sorted_false, py_sorted_true]
  haveI : IsAntisymm (Int × String) (fun a b => pair_le b a = true) :=
    ⟨fun a b h1 h2 => pair_le_antisymm a b h2 h1⟩
  have hperm : (entries.mergeSort (fun a b => pair_le b a)).Perm
      ((entries.mergeSort pair_le).reverse) :=
    ((List.mergeSort_perm entries _).trans
      (List.mergeSort_perm entries pair_le).symm).trans
      (List.reverse_perm (entries.mergeSort pair_le)).symm
  have hs1 : List.Pairwise (fun a b => pair_le a b = true) (entries.mergeSort pair_le) :=
    List.sorted_mergeSort (pair_le_trans) (pair_le_total) entries
  have hs2 : List.Pairwise (fun a b => pair_le b a = true)
      (entries.mergeSort (fun a b => pair_le b a)) :=
    List.sorted_mergeSort (fun a b c h1 h2 => pair_le_trans c b a h2 h1)
      (fun a b => by rw [Bool.or_comm]; exact pair_le_total a b) entries
  have hs3 : List.Pairwise (fun a b => pair_le b a = true)
      ((entries.mergeSort pair_le).reverse) :=
    List.pairwise_reverse.mpr hs1
  exact List.eq_of_perm_of_sorted hperm hs2 hs3

unseal List.merge List.mergeSort in
/-- **C1 (counterexample).**  Two entries buffered with EQUAL sort keys,
in insertion order `(1, "b")` then `(1, "a")`, are emitted as
`["a", "b"]`: Python's `sorted` compares the whole `(key, record)`
tuple, so the tie is broken by the record string, not by insertion
order as the claim states (the claim-side emission yields `["b", "a"]`). -/
theorem rb_emit_sorted_counterexample :
    rb_emit_sorted false [((1 : Int), "b"), (1, "a")] = ["a", "b"] ∧
    claim_emit false [((1 : Int), "b"), (1, "a")] = ["b", "a"] ∧
    rb_emit_sorted false [((1 : Int), "b"), (1, "a")] ≠
      claim_emit false [((1 : Int), "b"), (1, "a")] := by
  refine ⟨by decide, by decide, by decide⟩

/-- **C1 (amended).**  The buffered `(sort_key, output_record)` entries
are emitted as a stable sort by the FULL `(key, record)` pair: the
emitted entry sequence is a permutation of the buffered entries that is
non-decreasing under `pair_le` (key first, then record string), so
equal-key entries are emitted in record-string order, not insertion
order; the `DESC` output is exactly the reverse of the ascending output,
and the reverse flag is set iff the clause body case-insensitively ends
with `" DESC"`. -/
theorem rb_emit_sorted_amended (entries : List (Int × String)) (e : String) :
    (py_sorted false entries).Perm entries ∧
    List.Pairwise (fun a b => pair_le a b = true) (py_sorted false entries) ∧
    rb_emit_sorted true entries = (rb_emit_sorted false entries).reverse ∧
    (parse_order_by e).2 = str_ends_with (str_upper e) " DESC" := by
  refine ⟨?_, ?_, ?_, ?_⟩
  · rw [py_sorted_false]
    exact List.mergeSort_perm entries pair_le
  · rw [py_sorted_false]
    exact List.sorted_mergeSort pair_le_trans pair_le_total entries
  · by_cases hne : entries.length ≠ 0
    · rw [rb_emit_sorted, rb_emit_sorted, if_pos hne, if_pos hne,
        py_sorted_true_eq_reverse, List.map_reverse]
    · rw [rb_emit_sorted, rb_emit_sorted, if_neg hne, if_neg hne]
      rfl
  · rw [parse_order_by]
    cases hD : str_ends_with (str_upper e) " DESC" with
    | false =>
      simp only [Bool.false_eq_true, if_false]
      split <;> rfl
    | true =>
      simp only [if_true]
      split <;> rfl

end RBQL
